import Mathlib

/-!
# Lissajous server (`ch1/lissajous/main.go`)

A shallow embedding of the request handler, the two query-parameter resolvers and
the rendering routine `lissajous`.

Modelling conventions.

* Go `int` / `int64` values are integers (`Int`) kept in range by two's-complement wrapping:
  every `int` operation of the source (`2*size+1`, `size + int(…)`, `i++`, the differences
  and products of `image`) is wrapped by `wrapInt`, `int` being 64 bits wide (`IntSize`).
  Wrapping once at the end of an expression of sums and products equals wrapping after
  every operation.
* In the renderer `float64` is idealised as an arbitrary linearly ordered field `α` with a
  floor function (exact arithmetic, no rounding, no NaN or infinities).  The library values
  `math.Pi` and `math.Sin` and the `%f` formatter are arguments of the definitions that use
  them.  The conversion `int(f)` truncates towards zero when the result fits `int`, and
  otherwise yields `intIndefinite` (the language leaves that case to the implementation).
* The resolvers are generic in the type of the parsed value.  `ParseFloat` models the
  special names of `strconv.ParseFloat` (`NaN`, `Inf`, `Infinity`) over `Float64 α`, the
  finite values extended by the infinities and NaN; its parser of numbers is an argument.
* `log.Printf` appends the formatted line to a list of diagnostics that the function returns
  together with its result.
* `rand.Float64() * 3.0` is the argument `freq`.
* A loop that may run forever takes a step budget (`fuel`) and yields `none` when the budget
  is used up before the loop condition turns false.
* `image.NewPaletted` panics when the pixel count is negative or overflows `int`
  (`pixelBufferLength`) and when `make` refuses the length (more than `maxAlloc` bytes); a
  panic is the result `none`.  A buffer that passes both checks is taken to be allocated:
  exhaustion of the memory of the machine is not modelled.
* The write `p.Pix[i] = index` of `SetColorIndex` is `List.set`: on a raster made by
  `image.NewPaletted` the offset of a point inside the bounds is inside the pixel buffer.
* The result of `lissajous` is the animation handed to `gif.EncodeAll`, or `none` when no
  animation is handed over: the raster allocation panicked, or a sweep did not end within
  the step budget.  The byte encoding itself is not modelled; its error is ignored by the
  source.
-/

namespace Lissajous

/-! ## `strconv` -/

/-- The two error kinds of `strconv.NumError`. -/
inductive NumError where
  | ErrSyntax
  | ErrRange
  deriving DecidableEq, Repr

/-- Width of Go's `int` on the modelled platform (`strconv.IntSize`). -/
def IntSize : Nat := 64

/-- Conversion of an integer to a signed two's-complement integer of `w` bits. -/
def wrapSigned (w : Nat) (x : Int) : Int :=
  (x + 2 ^ (w - 1)) % 2 ^ w - 2 ^ (w - 1)

/-- Result of an arithmetic operation on Go `int`: the exact result, wrapped. -/
def wrapInt (x : Int) : Int := wrapSigned IntSize x

/-- Conversion of a natural number to an unsigned integer of 64 bits. -/
def wrapUint64 (x : Nat) : Nat := x % 2 ^ 64

/-- The constant `maxUint64` of `strconv`. -/
def maxUint64 : Nat := 2 ^ 64 - 1

/-- The helper `lower` of `strconv`: `c | ('x' - 'X')`. -/
def lower (c : Nat) : Nat := c ||| 0x20

/-- The digit value that the `switch` in the loop of `ParseUint` assigns to a byte
(no base prefix, so an underscore is not skipped); `none` is the `default` case. -/
def digitValue (c : Nat) : Option Nat :=
  if 48 ≤ c ∧ c ≤ 57 then some (c - 48)
  else if 97 ≤ lower c ∧ lower c ≤ 122 then some (lower c - 97 + 10)
  else none

/-- Loop of `strconv.ParseUint` over the bytes of the string, for `2 ≤ base ≤ 36`.
The accumulator is `n`; the result is the pair `(value, err)`. -/
def parseUintLoop (base bitSize : Nat) : List Char → Nat → Nat × Option NumError
  | [], n => (n, none)
  | c :: cs, n =>
    match digitValue c.toNat with
    | none => (0, some NumError.ErrSyntax)
    | some d =>
      if d ≥ base then (0, some NumError.ErrSyntax)
      else if n ≥ maxUint64 / base + 1 then (2 ^ bitSize - 1, some NumError.ErrRange)
      else
        let n10 := wrapUint64 (n * base)
        let n1 := wrapUint64 (n10 + d)
        if n1 < n10 ∨ n1 > 2 ^ bitSize - 1 then (2 ^ bitSize - 1, some NumError.ErrRange)
        else parseUintLoop base bitSize cs n1

/-- Model of `strconv.ParseUint(s, base, bitSize)` for `2 ≤ base ≤ 36`, `0 < bitSize ≤ 64`. -/
def ParseUint (s : List Char) (base bitSize : Nat) : Nat × Option NumError :=
  if s = [] then (0, some NumError.ErrSyntax)
  else parseUintLoop base bitSize s 0

/-- Second half of `strconv.ParseInt`, after the sign is picked off: convert the rest
unsigned and check the range. -/
def parseIntSigned (neg : Bool) (s : List Char) (base bitSize : Nat) : Int × Option NumError :=
  let r := ParseUint s base bitSize
  let un := r.1
  if r.2 = some NumError.ErrSyntax then (0, r.2)
  else
    let cutoff : Nat := 2 ^ (bitSize - 1)
    if !neg && decide (un ≥ cutoff) then (((cutoff - 1 : Nat) : Int), some NumError.ErrRange)
    else if neg && decide (un > cutoff) then (-(cutoff : Int), some NumError.ErrRange)
    else
      let n := wrapSigned 64 (un : Int)
      (if neg then wrapSigned 64 (-n) else n, none)

/-- Model of `strconv.ParseInt(s, base, bitSize)` for `2 ≤ base ≤ 36`, `0 < bitSize ≤ 64`:
the empty string is a syntax error; otherwise pick off the leading sign and convert. -/
def ParseInt (s : String) (base bitSize : Nat) : Int × Option NumError :=
  if s = "" then (0, some NumError.ErrSyntax)
  else
    match s.data with
    | '+' :: cs => parseIntSigned false cs base bitSize
    | '-' :: cs => parseIntSigned true cs base bitSize
    | cs => parseIntSigned false cs base bitSize

/-- The character of a decimal digit. -/
def digitChar (d : Nat) : Char := Char.ofNat (48 + d)

/-- Decimal digits of a natural number, most significant first (`"0"` for zero). -/
def formatNat (n : Nat) : List Char :=
  if n = 0 then ['0'] else ((Nat.digits 10 n).reverse.map digitChar)

/-- The decimal representation of an integer, as `strconv.FormatInt(n, 10)` and the
verb `%d` write it: a minus sign for a negative number, no leading zeros. -/
def formatInt (n : Int) : String :=
  if n < 0 then String.mk ('-' :: formatNat n.natAbs) else String.mk (formatNat n.toNat)

/-- Value of a string of decimal digits. -/
def decimalValue (ds : List Char) : Nat :=
  ds.foldl (fun n c => n * 10 + (c.toNat - 48)) 0

/-- Whether a byte is one of `'0'` to `'9'`. -/
def isDecDigit (c : Char) : Bool := decide (48 ≤ c.toNat ∧ c.toNat ≤ 57)

/-- A base-10 `int64` literal, in the words of the specification: an optional sign, then one
or more decimal digits, denoting a value `v` with `-2^63 ≤ v < 2^63`. -/
def isInt64Literal (s : String) : Bool :=
  match s.data with
  | '+' :: ds => !ds.isEmpty && ds.all isDecDigit && decide (decimalValue ds < 2 ^ 63)
  | '-' :: ds => !ds.isEmpty && ds.all isDecDigit && decide (decimalValue ds ≤ 2 ^ 63)
  | ds => !ds.isEmpty && ds.all isDecDigit && decide (decimalValue ds < 2 ^ 63)

/-! ## `net/url` and `net/http` -/

/-- The type `url.Values`: a map from a key to the list of its values. -/
abbrev Values := List (String × List String)

/-- The method `Values.Get`: the first value of the key, or `""` when there is none. -/
def Values.Get (v : Values) (key : String) : String :=
  match v.lookup key with
  | some (x :: _) => x
  | _ => ""

/-- The part of `http.Request` that the handler reads: the parsed query, `r.URL.Query()`. -/
structure Request where
  Query : Values

/-! ## The parameter resolvers -/

/-- Source `getIntQueryParam`: result and the lines written to the log. -/
def getIntQueryParam (r : Request) (param : String) (defaultValue : Int) : Int × List String :=
  let valueStr := r.Query.Get param
  if valueStr = "" then (defaultValue, [])
  else
    let p := ParseInt valueStr 10 64
    if p.2 ≠ none then
      (defaultValue,
        ["Invalid value for " ++ param ++ ": " ++ valueStr ++ ", using default: "
          ++ formatInt defaultValue])
    else (wrapSigned IntSize p.1, [])

/-- Source `getFloatQueryParam`: result and the lines written to the log.
`parseFloat s` is `strconv.ParseFloat(s, 64)` and `fmtF` renders the verb `%f`; `α` is the
type of the values of `float64`. -/
def getFloatQueryParam {α ε : Type} (parseFloat : String → Except ε α) (fmtF : α → String)
    (r : Request) (param : String) (defaultValue : α) : α × List String :=
  let valueStr := r.Query.Get param
  if valueStr = "" then (defaultValue, [])
  else
    match parseFloat valueStr with
    | Except.error _ =>
      (defaultValue,
        ["Invalid value for " ++ param ++ ": " ++ valueStr ++ ", using default: "
          ++ fmtF defaultValue])
    | Except.ok value => (value, [])

/-! ## `strconv.ParseFloat` -/

/-- The type `image.Point`. -/
structure Point where
  X : Int
  Y : Int
  deriving DecidableEq, Repr

/-- The type `image.Rectangle`: the points with `Min.X ≤ X < Max.X`, `Min.Y ≤ Y < Max.Y`. -/
structure Rectangle where
  Min : Point
  Max : Point
  deriving DecidableEq, Repr

/-- The function `image.Rect`: the rectangle of two corners, put in canonical order. -/
def Rect (x0 y0 x1 y1 : Int) : Rectangle :=
  let xs : Int × Int := if x0 > x1 then (x1, x0) else (x0, x1)
  let ys : Int × Int := if y0 > y1 then (y1, y0) else (y0, y1)
  { Min := { X := xs.1, Y := ys.1 }, Max := { X := xs.2, Y := ys.2 } }

/-- The method `Rectangle.Dx`: the width. -/
def Rectangle.Dx (r : Rectangle) : Int := wrapInt (r.Max.X - r.Min.X)

/-- The method `Rectangle.Dy`: the height. -/
def Rectangle.Dy (r : Rectangle) : Int := wrapInt (r.Max.Y - r.Min.Y)

/-- The method `Point.In`. -/
def Point.In (p : Point) (r : Rectangle) : Bool :=
  decide (r.Min.X ≤ p.X) && decide (p.X < r.Max.X) &&
    decide (r.Min.Y ≤ p.Y) && decide (p.Y < r.Max.Y)

/-- A colour of the palette. -/
inductive Color where
  | Black
  | RGBA (r g b a : Nat)
  deriving DecidableEq, Repr

/-- Source `palette`. -/
def palette : List Color := [Color.Black, Color.RGBA 0 255 0 255, Color.RGBA 255 0 0 255]

/-- Source `blackIndex`: first color in palette. -/
def blackIndex : Nat := 0

/-- Source `greenIndex`. -/
def greenIndex : Nat := 1

/-- Source `redIndex`. -/
def redIndex : Nat := 2

/-- The type `image.Paletted`: one palette index per pixel, row after row. -/
structure Paletted where
  Pix : List Nat
  Stride : Int
  Rect : Rectangle
  Palette : List Color
  deriving DecidableEq, Repr

/-- The helper `mul3NonNeg` of `image`: the product `x*y*z` when no argument is negative
and neither the 64-bit products nor the conversion to `int` overflow, and `-1` otherwise. -/
def mul3NonNeg (x y z : Int) : Int :=
  if x < 0 ∨ y < 0 ∨ z < 0 then -1
  else if 2 ^ 64 ≤ x * y then -1
  else if 2 ^ 64 ≤ x * y * z then -1
  else if wrapInt (x * y * z) < 0 then -1
  else wrapInt (x * y * z)

/-- The helper `pixelBufferLength` of `image`: the length of the pixel buffer, or `none`
where the source panics ("Rectangle has huge or negative dimensions"). -/
def pixelBufferLength (bytesPerPixel : Int) (r : Rectangle) : Option Int :=
  let totalLength := mul3NonNeg bytesPerPixel r.Dx r.Dy
  if totalLength < 0 then none else some totalLength

/-- The constant `maxAlloc` of the Go runtime on 64-bit platforms such as linux/amd64:
`make` panics ("len out of range") for a buffer of more bytes. -/
def maxAlloc : Int := 2 ^ 48

/-- The function `image.NewPaletted`: a raster of the given bounds, every pixel at index 0;
`none` where it panics, in `pixelBufferLength` or in `make([]uint8, n)`. -/
def NewPaletted (r : Rectangle) (p : List Color) : Option Paletted :=
  match pixelBufferLength 1 r with
  | none => none
  | some n =>
    if maxAlloc < n then none
    else
      some { Pix := List.replicate n.toNat 0
             Stride := wrapInt (1 * r.Dx)
             Rect := r
             Palette := p }

/-- The method `Paletted.PixOffset`. -/
def Paletted.PixOffset (p : Paletted) (x y : Int) : Int :=
  wrapInt ((y - p.Rect.Min.Y) * p.Stride + (x - p.Rect.Min.X) * 1)

/-- The method `Paletted.SetColorIndex`: a write outside the bounds is dropped. -/
def Paletted.SetColorIndex (p : Paletted) (x y : Int) (index : Nat) : Paletted :=
  if !(Point.In { X := x, Y := y } p.Rect) then p
  else { p with Pix := p.Pix.set (p.PixOffset x y).toNat index }

/-- The type `gif.GIF`, with the fields that `lissajous` sets. -/
structure GIF where
  Image : List Paletted
  Delay : List Int
  LoopCount : Int
  deriving DecidableEq, Repr

/-! ## The renderer -/

section Render

variable {α : Type} [LinearOrderedField α] [FloorRing α]

/-- Truncation of a float towards zero: the fraction is discarded. -/
def truncate (f : α) : Int := if 0 ≤ f then ⌊f⌋ else ⌈f⌉

/-- The value of `int(f)` when the truncated `f` does not fit `int`.  The language leaves
it to the implementation; this is the value on amd64. -/
def intIndefinite : Int := -2 ^ 63

/-- Conversion `int(f)` of a float to `int`. -/
def toInt (f : α) : Int :=
  if -2 ^ 63 ≤ truncate f ∧ truncate f < 2 ^ 63 then truncate f else intIndefinite

/-- Body of the sweep loop of `lissajous` (source lines 94 to 97) at parameter `t`. -/
def plot (sin : α → α) (freq phase : α) (size : Int) (t : α) (img : Paletted) : Paletted :=
  let x := sin t
  let y := sin (t * freq + phase)
  let img1 := img.SetColorIndex (wrapInt (size + toInt (x * (size : α) + 0.5)))
    (wrapInt (size + toInt (y * (size : α) + 0.5))) greenIndex
  img1.SetColorIndex (wrapInt (size + toInt (x * (size : α) + 0.7)))
    (wrapInt (size + toInt (y * (size : α) + 0.7))) redIndex

/-- The loop `for t := 0.0; t < bound; t += res { body }` started at `t` in state `s`,
with a budget of `fuel` iterations; `none` when the budget ends first. -/
def sweepLoop {σ : Type} (bound res : α) (body : α → σ → σ) : Nat → α → σ → Option σ
  | 0, t, s => if t < bound then none else some s
  | fuel + 1, t, s =>
    if t < bound then sweepLoop bound res body fuel (t + res) (body t s) else some s

/-- Number of iterations of the sweep loop `for t := 0.0; t < cycles*2*math.Pi; t += res`,
which is the number of points plotted in one frame. -/
def sweepCount (pi cycles res : α) (fuel : Nat) : Option Nat :=
  sweepLoop (cycles * 2 * pi) res (fun _ n => n + 1) fuel 0 0

/-- Variables of the frame loop of `lissajous`. -/
structure FrameState (α : Type) where
  i : Int
  phase : α
  anim : GIF

/-- One iteration of the frame loop of `lissajous` (source lines 91 to 102, then `i++`);
`none` when `image.NewPaletted` panics or the sweep does not end within `fuel` steps. -/
def frameBody (sin : α → α) (pi freq cycles res : α) (size delay : Int) (fuel : Nat)
    (st : FrameState α) : Option (FrameState α) :=
  let rect := Rect 0 0 (wrapInt (2 * size + 1)) (wrapInt (2 * size + 1))
  match NewPaletted rect palette with
  | none => none
  | some img =>
    match sweepLoop (cycles * 2 * pi) res (plot sin freq st.phase size) fuel 0 img with
    | none => none
    | some img1 =>
      some { i := wrapInt (st.i + 1)
             phase := st.phase + 0.1
             anim := { st.anim with
                       Delay := st.anim.Delay ++ [delay]
                       Image := st.anim.Image ++ [img1] } }

/-- The loop `for i := 0; i < nframes; i++` of `lissajous`, with a budget of `k` iterations. -/
def frameLoop (sin : α → α) (pi freq cycles res : α) (size nframes delay : Int) (fuel : Nat) :
    Nat → FrameState α → Option (FrameState α)
  | 0, st => if st.i < nframes then none else some st
  | k + 1, st =>
    if st.i < nframes then
      (frameBody sin pi freq cycles res size delay fuel st).bind
        (frameLoop sin pi freq cycles res size nframes delay fuel k)
    else some st

/-- Source `lissajous`: the animation that is handed to `gif.EncodeAll`, or `none` when none
is handed over (`image.NewPaletted` panics, or a sweep does not end within `fuel` steps).
`sin` is `math.Sin`, `pi` is `math.Pi` and `freq` is the value drawn by
`rand.Float64() * 3.0`. -/
def lissajous (sin : α → α) (pi freq : α) (fuel : Nat) (cycles res : α)
    (size nframes delay : Int) : Option GIF :=
  let anim : GIF := { Image := [], Delay := [], LoopCount := nframes }
  (frameLoop sin pi freq cycles res size nframes delay fuel nframes.toNat
    { i := 0, phase := 0.0, anim := anim }).map (fun st => st.anim)

/-- The arguments of a call of `lissajous`. -/
structure RenderArgs (α : Type) where
  cycles : α
  res : α
  size : Int
  nframes : Int
  delay : Int

/-- What `handler` does on a request: the lines it logs, the arguments with which it calls
`lissajous`, and the animation that call encodes. -/
structure Handled (α : Type) where
  log : List String
  call : RenderArgs α
  anim : Option GIF

/-- Source `handler`. -/
def handler {ε : Type} (parseFloat : String → Except ε α) (fmtF : α → String)
    (sin : α → α) (pi freq : α) (fuel : Nat) (r : Request) : Handled α :=
  let defaultCycles : α := 5
  let defaultRes : α := 0.001
  let defaultSize : Int := 100
  let defaultNframes : Int := 64
  let defaultDelay : Int := 8
  let cycles := getFloatQueryParam parseFloat fmtF r "cycles" defaultCycles
  let res := getFloatQueryParam parseFloat fmtF r "res" defaultRes
  let size := getIntQueryParam r "size" defaultSize
  let nframes := getIntQueryParam r "nframes" defaultNframes
  let delay := getIntQueryParam r "delay" defaultDelay
  { log := cycles.2 ++ res.2 ++ size.2 ++ nframes.2 ++ delay.2
    call := { cycles := cycles.1, res := res.1, size := size.1, nframes := nframes.1,
              delay := delay.1 }
    anim := lissajous sin pi freq fuel cycles.1 res.1 size.1 nframes.1 delay.1 }

end Render

/-! ## Theorems -/

theorem digitValue_of_digit (c : Nat) (h : 48 ≤ c ∧ c ≤ 57) : digitValue c = some (c - 48) := by
  simp [digitValue, h]

theorem digitValue_lt_ten (c d : Nat) (h : digitValue c = some d) (hd : d < 10) :
    (48 ≤ c ∧ c ≤ 57) ∧ d = c - 48 := by
  unfold digitValue at h
  split at h
  · rename_i hc
    simp at h
    exact ⟨hc, h.symm⟩
  · split at h
    · simp at h; omega
    · simp at h

theorem foldl_digits_ge (cs : List Char) (n : Nat) :
    n ≤ cs.foldl (fun n c => n * 10 + (c.toNat - 48)) n := by
  induction cs generalizing n with
  | nil => simp
  | cons c cs ih =>
    simp only [List.foldl_cons]
    exact le_trans (by omega) (ih _)

theorem parseUintLoop_complete (cs : List Char) (n : Nat)
    (hall : cs.all isDecDigit = true)
    (hv : cs.foldl (fun n c => n * 10 + (c.toNat - 48)) n < 2 ^ 64) :
    parseUintLoop 10 64 cs n = (cs.foldl (fun n c => n * 10 + (c.toNat - 48)) n, none) := by
  induction cs generalizing n with
  | nil => simp [parseUintLoop]
  | cons c cs ih =>
    simp only [List.all_cons, Bool.and_eq_true] at hall
    obtain ⟨hc, hcs⟩ := hall
    simp only [isDecDigit, decide_eq_true_eq] at hc
    simp only [List.foldl_cons] at hv ⊢
    have hge := foldl_digits_ge cs (n * 10 + (c.toNat - 48))
    have h1 : n * 10 + (c.toNat - 48) < 2 ^ 64 := lt_of_le_of_lt hge hv
    rw [parseUintLoop, digitValue_of_digit _ hc]
    have e1 : wrapUint64 (n * 10) = n * 10 := by
      unfold wrapUint64; apply Nat.mod_eq_of_lt; omega
    have e2 : wrapUint64 (n * 10 + (c.toNat - 48)) = n * 10 + (c.toNat - 48) := by
      unfold wrapUint64; apply Nat.mod_eq_of_lt; omega
    simp only [e1, e2, maxUint64]
    rw [if_neg (by omega), if_neg (by omega), if_neg (by omega)]
    exact ih _ hcs hv

theorem parseUintLoop_sound (cs : List Char) (n v : Nat)
    (h : parseUintLoop 10 64 cs n = (v, none)) :
    cs.all isDecDigit = true ∧ v = cs.foldl (fun n c => n * 10 + (c.toNat - 48)) n := by
  induction cs generalizing n with
  | nil => simp [parseUintLoop] at h; simp [h]
  | cons c cs ih =>
    rw [parseUintLoop] at h
    split at h
    · simp at h
    · rename_i d hd
      split at h
      · simp at h
      · rename_i hlt
        split at h
        · simp at h
        · rename_i hcut
          simp only at h
          split at h
          · simp at h
          · rename_i hov
            obtain ⟨hc, rfl⟩ := digitValue_lt_ten _ _ hd (by omega)
            have e1 : wrapUint64 (n * 10) = n * 10 := by
              unfold wrapUint64; apply Nat.mod_eq_of_lt; simp [maxUint64] at hcut; omega
            rw [e1] at h hov
            have e2 : wrapUint64 (n * 10 + (c.toNat - 48)) = n * 10 + (c.toNat - 48) := by
              unfold wrapUint64
              unfold wrapUint64 at hov
              apply Nat.mod_eq_of_lt
              simp [maxUint64] at hcut
              omega
            rw [e2] at h
            obtain ⟨h1, h2⟩ := ih _ h
            refine ⟨?_, ?_⟩
            · simp [List.all_cons, isDecDigit, hc, h1]
            · simpa [List.foldl_cons] using h2

theorem parseUintLoop_error (cs : List Char) (n v : Nat) (e : NumError)
    (h : parseUintLoop 10 64 cs n = (v, some e)) :
    e = NumError.ErrSyntax ∨ v = 2 ^ 64 - 1 := by
  induction cs generalizing n with
  | nil => simp [parseUintLoop] at h
  | cons c cs ih =>
    rw [parseUintLoop] at h
    split at h
    · simp at h; exact Or.inl h.2.symm
    · split at h
      · simp at h; exact Or.inl h.2.symm
      · split at h
        · simp at h; exact Or.inr h.1.symm
        · simp only at h
          split at h
          · simp at h; exact Or.inr h.1.symm
          · exact ih _ h


theorem string_mk_ne_empty (c : Char) (cs : List Char) : String.mk (c :: cs) ≠ "" := by
  intro h
  have := congrArg String.data h
  simp at this


theorem wrapSigned_of_range (x : Int) (h1 : -2 ^ 63 ≤ x) (h2 : x < 2 ^ 63) :
    wrapSigned 64 x = x := by
  unfold wrapSigned
  norm_num
  omega

theorem wrapSigned_two_pow : wrapSigned 64 (2 ^ 63) = -2 ^ 63 := by
  unfold wrapSigned
  norm_num

theorem parseIntSigned_sound (neg : Bool) (ds : List Char)
    (h : (parseIntSigned neg ds 10 64).2 = none) :
    (!ds.isEmpty && ds.all isDecDigit) = true ∧
      (if neg then decimalValue ds ≤ 2 ^ 63 else decimalValue ds < 2 ^ 63) ∧
      (parseIntSigned neg ds 10 64).1 =
        (if neg then -(decimalValue ds : Int) else (decimalValue ds : Int)) := by
  unfold parseIntSigned at h ⊢
  unfold ParseUint at h ⊢
  by_cases hnil : ds = []
  · simp [hnil] at h
  · simp only [if_neg hnil] at h ⊢
    generalize hr : parseUintLoop 10 64 ds 0 = p at h ⊢
    obtain ⟨v, e⟩ := p
    cases e with
    | some e =>
      rcases parseUintLoop_error ds 0 v e hr with he | hv
      · simp [he] at h
      · subst hv
        exfalso
        cases neg <;> simp at h
        all_goals (split at h <;> simp at h)
    | none =>
      obtain ⟨hall, hv⟩ := parseUintLoop_sound ds 0 v hr
      have hdv : v = decimalValue ds := hv
      subst hdv
      cases neg
      · simp at h ⊢
        split at h
        · simp at h
        · rename_i hlt
          refine ⟨⟨?_, ?_⟩, by omega, ?_⟩
          · simpa using hnil
          · simpa using hall
          · rw [if_neg (by omega)]
            apply wrapSigned_of_range <;> omega
      · simp at h ⊢
        split at h
        · simp at h
        · rename_i hle
          refine ⟨⟨?_, ?_⟩, by omega, ?_⟩
          · simpa using hnil
          · simpa using hall
          · rw [if_neg (by omega)]
            by_cases heq : decimalValue ds = 2 ^ 63
            · rw [heq]
              norm_num [wrapSigned_two_pow]
              unfold wrapSigned
              norm_num
            · rw [wrapSigned_of_range (decimalValue ds : Int) (by omega) (by omega)]
              apply wrapSigned_of_range <;> omega

theorem parseIntSigned_complete (neg : Bool) (ds : List Char) (hne : ds ≠ [])
    (hall : ds.all isDecDigit = true)
    (hv : if neg then decimalValue ds ≤ 2 ^ 63 else decimalValue ds < 2 ^ 63) :
    parseIntSigned neg ds 10 64 =
      (if neg then -(decimalValue ds : Int) else (decimalValue ds : Int), none) := by
  have hlt : decimalValue ds < 2 ^ 64 := by
    cases neg <;> simp at hv <;> omega
  have hr : parseUintLoop 10 64 ds 0 = (decimalValue ds, none) :=
    parseUintLoop_complete ds 0 hall hlt
  unfold parseIntSigned ParseUint
  rw [if_neg hne, hr]
  change (if (decimalValue ds, (none : Option NumError)).2 = some NumError.ErrSyntax then _ else _) = _
  cases neg
  · simp at hv ⊢
    rw [if_neg (by omega)]
    rw [wrapSigned_of_range _ (by omega) (by omega)]
  · simp at hv ⊢
    rw [if_neg (by omega)]
    by_cases heq : decimalValue ds = 2 ^ 63
    · rw [heq]
      norm_num [wrapSigned_two_pow]
      unfold wrapSigned
      norm_num
    · rw [wrapSigned_of_range (decimalValue ds : Int) (by omega) (by omega)]
      rw [wrapSigned_of_range _ (by omega) (by omega)]

theorem digitChar_toNat (d : Nat) (h : d < 10) : (digitChar d).toNat = 48 + d := by
  unfold digitChar
  interval_cases d <;> rfl

theorem decimalValue_digits (l : List Nat) (h : ∀ d ∈ l, d < 10) :
    decimalValue (l.reverse.map digitChar) = Nat.ofDigits 10 l := by
  induction l with
  | nil => simp [decimalValue]
  | cons d l ih =>
    have hd : d < 10 := h d (List.mem_cons_self _ _)
    have hl : ∀ x ∈ l, x < 10 := fun x hx => h x (List.mem_cons_of_mem _ hx)
    have ih1 := ih hl
    unfold decimalValue at ih1 ⊢
    simp only [List.reverse_cons, List.map_append, List.map_cons, List.map_nil,
      List.foldl_append, List.foldl_cons, List.foldl_nil, ih1, digitChar_toNat d hd,
      Nat.ofDigits_cons]
    omega

theorem formatNat_ne_nil (n : Nat) : formatNat n ≠ [] := by
  unfold formatNat
  split
  · simp
  · rename_i h
    simp [Nat.digits_ne_nil_iff_ne_zero, h]

theorem formatNat_all_digits (n : Nat) : (formatNat n).all isDecDigit = true := by
  unfold formatNat
  split
  · decide
  · simp only [List.all_eq_true, List.mem_map, List.mem_reverse]
    rintro c ⟨d, hd, rfl⟩
    have hlt : d < 10 := Nat.digits_lt_base (by norm_num) hd
    simp [isDecDigit, digitChar_toNat d hlt]
    omega

theorem decimalValue_formatNat (n : Nat) : decimalValue (formatNat n) = n := by
  unfold formatNat
  split
  · rename_i h
    subst h
    rfl
  · rw [decimalValue_digits _ (fun d hd => Nat.digits_lt_base (by norm_num) hd)]
    exact Nat.ofDigits_digits 10 n

theorem parseInt_cases (c : Char) (cs : List Char) :
    (c = '+' ∧ ParseInt (String.mk (c :: cs)) 10 64 = parseIntSigned false cs 10 64 ∧
        isInt64Literal (String.mk (c :: cs)) =
          (!cs.isEmpty && cs.all isDecDigit && decide (decimalValue cs < 2 ^ 63))) ∨
    (c = '-' ∧ ParseInt (String.mk (c :: cs)) 10 64 = parseIntSigned true cs 10 64 ∧
        isInt64Literal (String.mk (c :: cs)) =
          (!cs.isEmpty && cs.all isDecDigit && decide (decimalValue cs ≤ 2 ^ 63))) ∨
    (c ≠ '+' ∧ c ≠ '-' ∧
      ParseInt (String.mk (c :: cs)) 10 64 = parseIntSigned false (c :: cs) 10 64 ∧
        isInt64Literal (String.mk (c :: cs)) =
          (!(c :: cs).isEmpty && (c :: cs).all isDecDigit &&
            decide (decimalValue (c :: cs) < 2 ^ 63))) := by
  by_cases h1 : c = '+'
  · subst h1
    left
    refine ⟨rfl, ?_, ?_⟩
    · unfold ParseInt
      rw [if_neg (string_mk_ne_empty _ _)]
      rfl
    · unfold isInt64Literal
      rfl
  · by_cases h2 : c = '-'
    · subst h2
      right; left
      refine ⟨rfl, ?_, ?_⟩
      · unfold ParseInt
        rw [if_neg (string_mk_ne_empty _ _)]
        rfl
      · unfold isInt64Literal
        rfl
    · right; right
      refine ⟨h1, h2, ?_, ?_⟩
      · unfold ParseInt
        rw [if_neg (string_mk_ne_empty _ _)]
        split
        · rename_i heq
          simp at heq
          exact absurd heq.1 h1
        · rename_i heq
          simp at heq
          exact absurd heq.1 h2
        · rfl
      · unfold isInt64Literal
        split
        · rename_i heq
          simp at heq
          exact absurd heq.1 h1
        · rename_i heq
          simp at heq
          exact absurd heq.1 h2
        · rfl

theorem parseInt_complete (s : String) (h : isInt64Literal s = true) :
    (ParseInt s 10 64).2 = none := by
  obtain ⟨ds⟩ := s
  cases ds with
  | nil => simp [isInt64Literal] at h
  | cons c cs =>
    rcases parseInt_cases c cs with ⟨_, hp, hl⟩ | ⟨_, hp, hl⟩ | ⟨_, _, hp, hl⟩
    · rw [hl] at h
      simp only [Bool.and_eq_true, decide_eq_true_eq, Bool.not_eq_true'] at h
      rw [hp, parseIntSigned_complete false cs (by
        intro hnil; rw [hnil] at h; simp at h) h.1.2 (by simpa using h.2)]
    · rw [hl] at h
      simp only [Bool.and_eq_true, decide_eq_true_eq, Bool.not_eq_true'] at h
      rw [hp, parseIntSigned_complete true cs (by
        intro hnil; rw [hnil] at h; simp at h) h.1.2 (by simpa using h.2)]
    · rw [hl] at h
      simp only [Bool.and_eq_true, decide_eq_true_eq, Bool.not_eq_true'] at h
      rw [hp, parseIntSigned_complete false (c :: cs) (by simp) h.1.2 (by simpa using h.2)]

theorem isDecDigit_ne_sign (c : Char) (h : isDecDigit c = true) : c ≠ '+' ∧ c ≠ '-' := by
  constructor
  · rintro rfl
    exact absurd h (by decide)
  · rintro rfl
    exact absurd h (by decide)

theorem parseInt_formatInt (n : Int) (h1 : -2 ^ 63 ≤ n) (h2 : n < 2 ^ 63) :
    ParseInt (formatInt n) 10 64 = (n, none) := by
  unfold formatInt
  split
  · rename_i hneg
    rcases parseInt_cases '-' (formatNat n.natAbs) with ⟨hc, _⟩ | ⟨_, hp, _⟩ | ⟨_, hc, _⟩
    · exact absurd hc (by decide)
    · rw [hp, parseIntSigned_complete true _ (formatNat_ne_nil _) (formatNat_all_digits _)
        (by simp only [if_true, decimalValue_formatNat]; omega)]
      simp only [if_true, decimalValue_formatNat]
      congr 1
      omega
    · exact absurd rfl hc
  · rename_i hpos
    have hall := formatNat_all_digits n.toNat
    have hval := decimalValue_formatNat n.toNat
    have hne := formatNat_ne_nil n.toNat
    generalize formatNat n.toNat = ds at hall hval hne
    cases ds with
    | nil => exact absurd rfl hne
    | cons c cs =>
      have hc : isDecDigit c = true := by
        simp only [List.all_cons, Bool.and_eq_true] at hall
        exact hall.1
      obtain ⟨hc1, hc2⟩ := isDecDigit_ne_sign c hc
      rcases parseInt_cases c cs with ⟨hc, _⟩ | ⟨hc, _⟩ | ⟨_, _, hp, _⟩
      · exact absurd hc hc1
      · exact absurd hc hc2
      · rw [hp, parseIntSigned_complete false _ hne hall
          (by simp only [Bool.false_eq_true, if_false, hval]; omega)]
        simp only [Bool.false_eq_true, if_false, hval]
        congr 1
        omega

theorem formatInt_ne_empty (n : Int) : formatInt n ≠ "" := by
  unfold formatInt
  split
  · exact string_mk_ne_empty _ _
  · have hne := formatNat_ne_nil n.toNat
    generalize formatNat n.toNat = ds at hne
    cases ds with
    | nil => exact absurd rfl hne
    | cons c cs => exact string_mk_ne_empty _ _

theorem values_get_absent (v : Values) (key : String)
    (h : v.lookup key = none ∨ v.lookup key = some []) : v.Get key = "" := by
  unfold Values.Get
  rcases h with h | h <;> rw [h]

/-- C1. When the query holds no value under the parameter name, `getIntQueryParam` and
`getFloatQueryParam` return exactly the given default and log nothing; and on a request
whose query is empty, `handler` logs nothing and calls `lissajous` with `cycles = 5`,
`res = 0.001`, `size = 100`, `nframes = 64`, `delay = 8`. -/
theorem getQueryParam_absent {α ε : Type} [LinearOrderedField α] [FloorRing α]
    (parseFloat : String → Except ε α) (fmtF : α → String) (sin : α → α) (pi freq : α)
    (fuel : Nat) (r : Request) (param : String) (dInt : Int) (dFloat : α)
    (h : r.Query.lookup param = none ∨ r.Query.lookup param = some []) :
    getIntQueryParam r param dInt = (dInt, []) ∧
    getFloatQueryParam parseFloat fmtF r param dFloat = (dFloat, []) ∧
    handler parseFloat fmtF sin pi freq fuel { Query := [] } =
      { log := []
        call := { cycles := 5, res := 0.001, size := 100, nframes := 64, delay := 8 }
        anim := lissajous sin pi freq fuel 5 0.001 100 64 8 } := by
  have hget := values_get_absent r.Query param h
  refine ⟨?_, ?_, ?_⟩
  · unfold getIntQueryParam
    simp only [hget, if_true]
  · unfold getFloatQueryParam
    simp only [hget, if_true]
  · simp [handler, getFloatQueryParam, getIntQueryParam, Values.Get]

theorem getQueryParam_absent_witness :
    getIntQueryParam { Query := [("size", ["7"])] } "nframes" 64 = (64, []) ∧
    getFloatQueryParam (fun _ => (Except.error () : Except Unit ℚ)) (fun _ => "")
      { Query := [("size", ["7"])] } "nframes" 5 = (5, []) ∧
    handler (fun _ => (Except.error () : Except Unit ℚ)) (fun _ => "") (fun _ => 0) 3 1 0
        { Query := [] } =
      { log := []
        call := { cycles := 5, res := 0.001, size := 100, nframes := 64, delay := 8 }
        anim := lissajous (fun _ => (0 : ℚ)) 3 1 0 5 0.001 100 64 8 } :=
  getQueryParam_absent (fun _ => (Except.error () : Except Unit ℚ)) (fun _ => "") (fun _ => 0)
    3 1 0 { Query := [("size", ["7"])] } "nframes" 64 5 (Or.inl (by decide))

theorem parseInt_range (s : String) (h : (ParseInt s 10 64).2 = none) :
    -2 ^ 63 ≤ (ParseInt s 10 64).1 ∧ (ParseInt s 10 64).1 < 2 ^ 63 := by
  obtain ⟨ds⟩ := s
  cases ds with
  | nil => simp [ParseInt] at h
  | cons c cs =>
    rcases parseInt_cases c cs with ⟨_, hp, _⟩ | ⟨_, hp, _⟩ | ⟨_, _, hp, _⟩
    · rw [hp] at h ⊢
      obtain ⟨_, h2, h3⟩ := parseIntSigned_sound _ _ h
      rw [h3]
      simp only [Bool.false_eq_true, if_false] at h2 ⊢
      omega
    · rw [hp] at h ⊢
      obtain ⟨_, h2, h3⟩ := parseIntSigned_sound _ _ h
      rw [h3]
      simp only [if_true] at h2 ⊢
      omega
    · rw [hp] at h ⊢
      obtain ⟨_, h2, h3⟩ := parseIntSigned_sound _ _ h
      rw [h3]
      simp only [Bool.false_eq_true, if_false] at h2 ⊢
      omega

/-- C3. For every integer `n` with `-2^63 ≤ n < 2^63` and every default `d`,
`getIntQueryParam` on a query whose value for the parameter is the decimal representation
of `n` returns `n` and logs nothing, whatever `d` is; and on any non-empty value that is a
base-10 `int64` literal it returns the value that `strconv.ParseInt` parsed, not the
default, and logs nothing. -/
theorem getIntQueryParam_wellformed (r : Request) (param : String) (d : Int) :
    (∀ n : Int, -2 ^ 63 ≤ n → n < 2 ^ 63 → r.Query.Get param = formatInt n →
      getIntQueryParam r param d = (n, [])) ∧
    (r.Query.Get param ≠ "" → isInt64Literal (r.Query.Get param) = true →
      getIntQueryParam r param d = ((ParseInt (r.Query.Get param) 10 64).1, [])) := by
  constructor
  · intro n h1 h2 hq
    unfold getIntQueryParam
    simp only [hq, if_neg (formatInt_ne_empty n), parseInt_formatInt n h1 h2]
    simp only [ne_eq, not_true_eq_false, if_false, IntSize]
    rw [wrapSigned_of_range n h1 h2]
  · intro hne hlit
    have hok := parseInt_complete _ hlit
    obtain ⟨h1, h2⟩ := parseInt_range _ hok
    unfold getIntQueryParam
    simp only [if_neg hne, hok, ne_eq, not_true_eq_false, if_false, IntSize]
    rw [wrapSigned_of_range _ h1 h2]

theorem getIntQueryParam_wellformed_witness :
    getIntQueryParam { Query := [("size", ["42"])] } "size" 100 = (42, []) :=
  (getIntQueryParam_wellformed { Query := [("size", ["42"])] } "size" 100).1 42
    (by norm_num) (by norm_num)
    (by simp [Values.Get, List.lookup, formatInt, formatNat, digitChar])

/-! ### Rasters -/

theorem wrapInt_of_range (x : Int) (h1 : -2 ^ 63 ≤ x) (h2 : x < 2 ^ 63) : wrapInt x = x := by
  unfold wrapInt IntSize
  exact wrapSigned_of_range x h1 h2

theorem setColorIndex_rect (p : Paletted) (x y : Int) (i : Nat) :
    (p.SetColorIndex x y i).Rect = p.Rect ∧ (p.SetColorIndex x y i).Stride = p.Stride ∧
      (p.SetColorIndex x y i).Palette = p.Palette ∧
      (p.SetColorIndex x y i).Pix.length = p.Pix.length := by
  unfold Paletted.SetColorIndex
  split <;> simp

theorem rect_canonical (S : Int) (hS : 0 ≤ S) (hS2 : S < 2 ^ 62) :
    Rect 0 0 (wrapInt (2 * S + 1)) (wrapInt (2 * S + 1)) =
      { Min := { X := 0, Y := 0 }, Max := { X := 2 * S + 1, Y := 2 * S + 1 } } := by
  rw [wrapInt_of_range (2 * S + 1) (by omega) (by omega)]
  unfold Rect
  rw [if_neg (by omega)]

theorem side_lt_of_fits (S : Int) (hfit : (2 * S + 1) * (2 * S + 1) < 2 ^ 63) :
    S < 2 ^ 31 := by
  by_contra hcon
  have h1 : (2 : Int) ^ 31 ≤ S := not_lt.mp hcon
  have h2 : (2 : Int) ^ 32 + 1 ≤ 2 * S + 1 := by omega
  have h3 : ((2 : Int) ^ 32 + 1) * (2 ^ 32 + 1) ≤ (2 * S + 1) * (2 * S + 1) :=
    mul_le_mul h2 h2 (by norm_num) (by omega)
  have h4 : (2 : Int) ^ 63 < (2 ^ 32 + 1) * (2 ^ 32 + 1) := by norm_num
  omega

theorem mul3NonNeg_side (w : Int) (hw : 0 ≤ w) :
    mul3NonNeg 1 w w = if w * w < 2 ^ 63 then w * w else -1 := by
  have hww : 0 ≤ w * w := mul_nonneg hw hw
  have hle : w ≤ w * w ∨ w = 0 := by
    rcases eq_or_lt_of_le hw with h0 | hpos
    · right; exact h0.symm
    · left
      have : 1 * w ≤ w * w := mul_le_mul_of_nonneg_right (by omega) hw
      simpa using this
  unfold mul3NonNeg
  rw [if_neg (by omega)]
  simp only [one_mul]
  by_cases h63 : w * w < 2 ^ 63
  · rw [if_pos h63, if_neg (by omega), if_neg (by omega),
      wrapInt_of_range (w * w) (by omega) h63, if_neg (by omega)]
  · rw [if_neg h63]
    by_cases h64a : (2 : Int) ^ 64 ≤ w
    · rw [if_pos h64a]
    · rw [if_neg h64a]
      by_cases h64 : (2 : Int) ^ 64 ≤ w * w
      · rw [if_pos h64]
      · rw [if_neg h64]
        have hneg : wrapInt (w * w) < 0 := by
          unfold wrapInt wrapSigned IntSize
          norm_num
          omega
        rw [if_pos hneg]

theorem newPaletted_canonical (S : Int) (hS : 0 ≤ S) (hS2 : S < 2 ^ 62) (p : List Color) :
    NewPaletted (Rect 0 0 (wrapInt (2 * S + 1)) (wrapInt (2 * S + 1))) p =
      if (2 * S + 1) * (2 * S + 1) ≤ 2 ^ 48 then
        some { Pix := List.replicate ((2 * S + 1) * (2 * S + 1)).toNat 0
               Stride := 2 * S + 1
               Rect := { Min := { X := 0, Y := 0 }, Max := { X := 2 * S + 1, Y := 2 * S + 1 } }
               Palette := p }
      else none := by
  rw [rect_canonical S hS hS2]
  have hd : wrapInt (2 * S + 1 - 0) = 2 * S + 1 := by
    rw [sub_zero]
    exact wrapInt_of_range _ (by omega) (by omega)
  have hst : wrapInt (1 * (2 * S + 1)) = 2 * S + 1 := by
    rw [one_mul]
    exact wrapInt_of_range _ (by omega) (by omega)
  have hnn : 0 ≤ (2 * S + 1) * (2 * S + 1) := by positivity
  unfold NewPaletted pixelBufferLength
  simp only [Rectangle.Dx, Rectangle.Dy, hd, hst, mul3NonNeg_side (2 * S + 1) (by omega)]
  by_cases h63 : (2 * S + 1) * (2 * S + 1) < 2 ^ 63
  · simp only [h63, if_true, if_neg (not_lt.mpr hnn), maxAlloc]
    by_cases hfit : (2 * S + 1) * (2 * S + 1) ≤ 2 ^ 48
    · rw [if_neg (not_lt.mpr hfit), if_pos hfit]
    · rw [if_pos (not_le.mp hfit), if_neg hfit]
  · simp only [h63, if_false]
    rw [if_pos (by norm_num), if_neg (by omega)]

theorem newPaletted_fits (S : Int) (hS : 0 ≤ S) (hfit : (2 * S + 1) * (2 * S + 1) ≤ 2 ^ 48)
    (p : List Color) :
    NewPaletted (Rect 0 0 (wrapInt (2 * S + 1)) (wrapInt (2 * S + 1))) p =
      some { Pix := List.replicate ((2 * S + 1) * (2 * S + 1)).toNat 0
             Stride := 2 * S + 1
             Rect := { Min := { X := 0, Y := 0 }, Max := { X := 2 * S + 1, Y := 2 * S + 1 } }
             Palette := p } := by
  have h31 := side_lt_of_fits S (by omega)
  rw [newPaletted_canonical S hS (by omega) p, if_pos hfit]

theorem newPaletted_black (r : Rectangle) (img : Paletted)
    (h : NewPaletted r palette = some img) : ∀ p ∈ img.Pix, p = blackIndex := by
  intro p hp
  unfold NewPaletted at h
  split at h
  · simp at h
  · split at h
    · simp at h
    · simp only [Option.some.injEq] at h
      subst h
      exact (List.mem_replicate.mp hp).2

section PlotLemmas

variable {α : Type} [LinearOrderedField α] [FloorRing α]

theorem plot_rect (sin : α → α) (freq phase : α) (size : Int) (t : α) (img : Paletted) :
    (plot sin freq phase size t img).Rect = img.Rect ∧
      (plot sin freq phase size t img).Stride = img.Stride ∧
      (plot sin freq phase size t img).Palette = img.Palette ∧
      (plot sin freq phase size t img).Pix.length = img.Pix.length := by
  unfold plot
  simp only
  obtain ⟨a1, a2, a3, a4⟩ := setColorIndex_rect
    (img.SetColorIndex (wrapInt (size + toInt (sin t * (size : α) + 0.5)))
      (wrapInt (size + toInt (sin (t * freq + phase) * (size : α) + 0.5))) greenIndex)
    (wrapInt (size + toInt (sin t * (size : α) + 0.7)))
    (wrapInt (size + toInt (sin (t * freq + phase) * (size : α) + 0.7))) redIndex
  obtain ⟨b1, b2, b3, b4⟩ := setColorIndex_rect img
    (wrapInt (size + toInt (sin t * (size : α) + 0.5)))
    (wrapInt (size + toInt (sin (t * freq + phase) * (size : α) + 0.5))) greenIndex
  exact ⟨a1.trans b1, a2.trans b2, a3.trans b3, a4.trans b4⟩

end PlotLemmas

/-! ### The sweep loop -/

section SweepLemmas

variable {α : Type} [LinearOrderedField α]

theorem sweepLoop_done {σ : Type} (bound res : α) (body : α → σ → σ) (fuel : Nat) (t : α)
    (s : σ) (h : ¬ t < bound) : sweepLoop bound res body fuel t s = some s := by
  cases fuel <;> simp [sweepLoop, h]

theorem sweepLoop_step {σ : Type} (bound res : α) (body : α → σ → σ) (fuel : Nat) (t : α)
    (s : σ) (h : t < bound) :
    sweepLoop bound res body (fuel + 1) t s = sweepLoop bound res body fuel (t + res) (body t s) := by
  simp [sweepLoop, h]

theorem sweepLoop_invariant {σ : Type} (bound res : α) (body : α → σ → σ) (P : σ → Prop)
    (hbody : ∀ t s, P s → P (body t s)) (fuel : Nat) (t : α) (s s1 : σ) (hs : P s)
    (h : sweepLoop bound res body fuel t s = some s1) : P s1 := by
  induction fuel generalizing t s with
  | zero =>
    unfold sweepLoop at h
    split at h
    · simp at h
    · simp at h; rw [← h]; exact hs
  | succ fuel ih =>
    unfold sweepLoop at h
    split at h
    · exact ih _ _ (hbody _ _ hs) h
    · simp at h; rw [← h]; exact hs

theorem sweepLoop_isSome {σ τ : Type} (bound res : α) (body : α → σ → σ) (body1 : α → τ → τ)
    (fuel : Nat) (t : α) (s : σ) (c : τ) :
    (sweepLoop bound res body fuel t s).isSome = (sweepLoop bound res body1 fuel t c).isSome := by
  induction fuel generalizing t s c with
  | zero =>
    unfold sweepLoop
    split <;> rfl
  | succ fuel ih =>
    unfold sweepLoop
    split
    · exact ih _ _ _
    · rfl

theorem sweepLoop_starved {σ : Type} (bound res : α) (body : α → σ → σ) (fuel : Nat) (t : α)
    (s : σ) (h : ∀ j : Nat, j ≤ fuel → t + j * res < bound) :
    sweepLoop bound res body fuel t s = none := by
  induction fuel generalizing t s with
  | zero =>
    have h0 := h 0 (le_refl 0)
    simp at h0
    simp [sweepLoop, h0]
  | succ fuel ih =>
    have h0 := h 0 (Nat.zero_le _)
    simp at h0
    rw [sweepLoop_step _ _ _ _ _ _ h0]
    apply ih
    intro j hj
    have := h (j + 1) (by omega)
    push_cast at this
    linarith

theorem sweepLoop_count (bound res : α) (m fuel : Nat) (t : α) (c : Nat) (hm : m ≤ fuel)
    (hlt : ∀ j : Nat, j < m → t + j * res < bound) (hge : ¬ t + m * res < bound) :
    sweepLoop bound res (fun _ n => n + 1) fuel t c = some (c + m) := by
  induction m generalizing fuel t c with
  | zero =>
    simp at hge
    rw [sweepLoop_done _ _ _ _ _ _ (by simpa using hge)]
    rfl
  | succ m ih =>
    obtain ⟨fuel, rfl⟩ : ∃ f, fuel = f + 1 := ⟨fuel - 1, by omega⟩
    have h0 := hlt 0 (Nat.succ_pos _)
    simp at h0
    rw [sweepLoop_step _ _ _ _ _ _ h0]
    rw [ih fuel (t + res) (c + 1) (by omega)]
    · congr 1; omega
    · intro j hj
      have := hlt (j + 1) (by omega)
      push_cast at this
      linarith
    · intro hcon
      apply hge
      push_cast
      linarith

theorem sweepLoop_once {σ : Type} (bound res : α) (body : α → σ → σ) (fuel : Nat) (s : σ)
    (h0 : 0 < bound) (h1 : bound ≤ res) :
    sweepLoop bound res body (fuel + 1) 0 s = some (body 0 s) := by
  rw [sweepLoop_step _ _ _ _ _ _ h0]
  apply sweepLoop_done
  rw [zero_add]
  exact not_lt.mpr h1

end SweepLemmas

/-! ### The frame loop -/

section FrameLemmas

variable {α : Type} [LinearOrderedField α] [FloorRing α]

theorem frameBody_of_sweep (sin : α → α) (pi freq cycles res : α) (size delay : Int)
    (fuel : Nat) (st : FrameState α) (img0 img : Paletted)
    (hnew : NewPaletted (Rect 0 0 (wrapInt (2 * size + 1)) (wrapInt (2 * size + 1))) palette =
      some img0)
    (h : sweepLoop (cycles * 2 * pi) res (plot sin freq st.phase size) fuel 0 img0 = some img) :
    frameBody sin pi freq cycles res size delay fuel st =
      some { i := wrapInt (st.i + 1)
             phase := st.phase + 0.1
             anim := { st.anim with
                       Delay := st.anim.Delay ++ [delay]
                       Image := st.anim.Image ++ [img] } } := by
  unfold frameBody
  simp only [hnew, h]

theorem frameBody_some (sin : α → α) (pi freq cycles res : α) (size delay : Int)
    (fuel : Nat) (st st1 : FrameState α)
    (h : frameBody sin pi freq cycles res size delay fuel st = some st1) :
    ∃ img0 img,
      NewPaletted (Rect 0 0 (wrapInt (2 * size + 1)) (wrapInt (2 * size + 1))) palette =
        some img0 ∧
      sweepLoop (cycles * 2 * pi) res (plot sin freq st.phase size) fuel 0 img0 = some img ∧
      st1 = { i := wrapInt (st.i + 1)
              phase := st.phase + 0.1
              anim := { st.anim with
                        Delay := st.anim.Delay ++ [delay]
                        Image := st.anim.Image ++ [img] } } := by
  unfold frameBody at h
  simp only at h
  split at h
  · simp at h
  · rename_i img0 hnew
    split at h
    · simp at h
    · rename_i img himg
      exact ⟨img0, img, hnew, himg, by simpa using h.symm⟩

theorem frameBody_none_of_panic (sin : α → α) (pi freq cycles res : α) (size delay : Int)
    (fuel : Nat) (st : FrameState α)
    (hnew : NewPaletted (Rect 0 0 (wrapInt (2 * size + 1)) (wrapInt (2 * size + 1))) palette =
      none) :
    frameBody sin pi freq cycles res size delay fuel st = none := by
  unfold frameBody
  simp only [hnew]

theorem frameLoop_first_none (sin : α → α) (pi freq cycles res : α)
    (size nframes delay : Int) (fuel : Nat) (st : FrameState α) (hlt : st.i < nframes)
    (hb : frameBody sin pi freq cycles res size delay fuel st = none) (k : Nat) :
    frameLoop sin pi freq cycles res size nframes delay fuel k st = none := by
  cases k with
  | zero => simp [frameLoop, hlt]
  | succ k =>
    unfold frameLoop
    rw [if_pos hlt, hb]
    rfl

theorem frameLoop_total (sin : α → α) (pi freq cycles res : α) (size nframes delay : Int)
    (fuel : Nat) (Q : Paletted → Prop) (img0 : Paletted)
    (hnew : NewPaletted (Rect 0 0 (wrapInt (2 * size + 1)) (wrapInt (2 * size + 1))) palette =
      some img0)
    (hsweep : ∀ phase : α, ∃ img,
      sweepLoop (cycles * 2 * pi) res (plot sin freq phase size) fuel 0 img0 = some img ∧ Q img)
    (hint : nframes < 2 ^ 63)
    (k : Nat) (st : FrameState α) (hi : -2 ^ 63 ≤ st.i) (hk : (nframes - st.i).toNat ≤ k) :
    ∃ st1, frameLoop sin pi freq cycles res size nframes delay fuel k st = some st1 ∧
      st1.anim.LoopCount = st.anim.LoopCount ∧
      st1.anim.Delay = st.anim.Delay ++ List.replicate (nframes - st.i).toNat delay ∧
      ∃ imgs, st1.anim.Image = st.anim.Image ++ imgs ∧
        imgs.length = (nframes - st.i).toNat ∧ ∀ img ∈ imgs, Q img := by
  induction k generalizing st with
  | zero =>
    have hle : ¬ st.i < nframes := by omega
    have h0 : (nframes - st.i).toNat = 0 := by omega
    refine ⟨st, by simp [frameLoop, hle], rfl, by simp [h0], [], by simp, by simp [h0], by simp⟩
  | succ k ih =>
    by_cases hlt : st.i < nframes
    · obtain ⟨img, himg, hQ⟩ := hsweep st.phase
      have hb := frameBody_of_sweep sin pi freq cycles res size delay fuel st img0 img hnew himg
      have hw : wrapInt (st.i + 1) = st.i + 1 := wrapInt_of_range _ (by omega) (by omega)
      rw [hw] at hb
      have hn : (nframes - st.i).toNat = (nframes - (st.i + 1)).toNat + 1 := by omega
      obtain ⟨st1, h1, h2, h3, imgs, h4, h5, h6⟩ := ih
        { i := st.i + 1, phase := st.phase + 0.1
          anim := { st.anim with Delay := st.anim.Delay ++ [delay]
                                 Image := st.anim.Image ++ [img] } }
        (by simp only; omega) (by simp only; omega)
      refine ⟨st1, ?_, h2, ?_, img :: imgs, ?_, ?_, ?_⟩
      · unfold frameLoop
        rw [if_pos hlt, hb]
        exact h1
      · rw [h3, hn]
        simp [List.replicate_succ]
      · rw [h4]
        simp
      · rw [hn]
        simp [h5]
      · intro x hx
        rcases List.mem_cons.mp hx with rfl | hx
        · exact hQ
        · exact h6 x hx
    · have h0 : (nframes - st.i).toNat = 0 := by omega
      refine ⟨st, ?_, rfl, by simp [h0], [], by simp, by simp [h0], by simp⟩
      unfold frameLoop
      rw [if_neg hlt]

theorem frameLoop_result (sin : α → α) (pi freq cycles res : α) (size nframes delay : Int)
    (fuel : Nat) (Q : Paletted → Prop)
    (hsweep : ∀ (phase : α) (img0 img : Paletted),
      NewPaletted (Rect 0 0 (wrapInt (2 * size + 1)) (wrapInt (2 * size + 1))) palette =
        some img0 →
      sweepLoop (cycles * 2 * pi) res (plot sin freq phase size) fuel 0 img0 = some img → Q img)
    (k : Nat) (st st1 : FrameState α)
    (h : frameLoop sin pi freq cycles res size nframes delay fuel k st = some st1) :
    st1.anim.LoopCount = st.anim.LoopCount ∧
      ∃ imgs, st1.anim.Image = st.anim.Image ++ imgs ∧ ∀ img ∈ imgs, Q img := by
  induction k generalizing st with
  | zero =>
    unfold frameLoop at h
    split at h
    · simp at h
    · simp at h
      subst h
      exact ⟨rfl, [], by simp, by simp⟩
  | succ k ih =>
    unfold frameLoop at h
    split at h
    · cases hb : frameBody sin pi freq cycles res size delay fuel st with
      | none => rw [hb] at h; simp at h
      | some st2 =>
        rw [hb] at h
        simp only [Option.some_bind] at h
        obtain ⟨img0, img, hnew, himg, rfl⟩ := frameBody_some _ _ _ _ _ _ _ _ _ _ hb
        obtain ⟨h1, imgs, h2, h3⟩ := ih _ h
        refine ⟨h1, img :: imgs, by rw [h2]; simp, ?_⟩
        intro x hx
        rcases List.mem_cons.mp hx with rfl | hx
        · exact hsweep _ _ _ hnew himg
        · exact h3 x hx
    · simp at h
      subst h
      exact ⟨rfl, [], by simp, by simp⟩

theorem sweep_keeps_shape (sin : α → α) (freq phase : α) (size : Int) (bound res : α)
    (fuel : Nat) (t : α) (img0 img : Paletted)
    (h : sweepLoop bound res (plot sin freq phase size) fuel t img0 = some img) :
    img.Rect = img0.Rect ∧ img.Stride = img0.Stride ∧ img.Palette = img0.Palette ∧
      img.Pix.length = img0.Pix.length := by
  refine sweepLoop_invariant bound res (plot sin freq phase size)
    (fun p => p.Rect = img0.Rect ∧ p.Stride = img0.Stride ∧ p.Palette = img0.Palette ∧
      p.Pix.length = img0.Pix.length) ?_ fuel t img0 img ⟨rfl, rfl, rfl, rfl⟩ h
  intro t s hs
  obtain ⟨a1, a2, a3, a4⟩ := plot_rect sin freq phase size t s
  exact ⟨a1.trans hs.1, a2.trans hs.2.1, a3.trans hs.2.2.1, a4.trans hs.2.2.2⟩

theorem sweep_terminates_of_count (sin : α → α) (pi freq cycles res phase : α) (size : Int)
    (fuel : Nat) (img0 : Paletted) (h : (sweepCount pi cycles res fuel).isSome = true) :
    ∃ img, sweepLoop (cycles * 2 * pi) res (plot sin freq phase size) fuel 0 img0 = some img := by
  unfold sweepCount at h
  rw [← sweepLoop_isSome (cycles * 2 * pi) res (plot sin freq phase size) _ fuel 0 img0 0] at h
  exact Option.isSome_iff_exists.mp h

theorem lissajous_some (sin : α → α) (pi freq cycles res : α) (size nframes delay : Int)
    (fuel : Nat) (anim : GIF)
    (h : lissajous sin pi freq fuel cycles res size nframes delay = some anim) :
    ∃ st1, frameLoop sin pi freq cycles res size nframes delay fuel nframes.toNat
        { i := 0, phase := 0.0, anim := { Image := [], Delay := [], LoopCount := nframes } } =
          some st1 ∧ st1.anim = anim := by
  unfold lissajous at h
  simp only [Option.map_eq_some'] at h
  exact h

theorem lissajous_none_of_first (sin : α → α) (pi freq cycles res : α)
    (size nframes delay : Int) (fuel : Nat) (hN : 0 < nframes)
    (hb : ∀ st : FrameState α, frameBody sin pi freq cycles res size delay fuel st = none) :
    lissajous sin pi freq fuel cycles res size nframes delay = none := by
  unfold lissajous
  simp only
  rw [frameLoop_first_none sin pi freq cycles res size nframes delay fuel _ hN (hb _)]
  rfl

theorem lissajous_total (sin : α → α) (pi freq cycles res : α) (size nframes delay : Int)
    (fuel : Nat) (Q : Paletted → Prop) (hint : nframes < 2 ^ 63)
    (hsweep : 0 < nframes → ∃ img0,
      NewPaletted (Rect 0 0 (wrapInt (2 * size + 1)) (wrapInt (2 * size + 1))) palette =
        some img0 ∧
      ∀ phase : α, ∃ img,
        sweepLoop (cycles * 2 * pi) res (plot sin freq phase size) fuel 0 img0 = some img ∧
          Q img) :
    ∃ anim, lissajous sin pi freq fuel cycles res size nframes delay = some anim ∧
      anim.LoopCount = nframes ∧ anim.Delay = List.replicate nframes.toNat delay ∧
      anim.Image.length = nframes.toNat ∧ ∀ img ∈ anim.Image, Q img := by
  by_cases hN : 0 < nframes
  · obtain ⟨img0, hnew, hsw⟩ := hsweep hN
    obtain ⟨st1, h1, h2, h3, imgs, h4, h5, h6⟩ :=
      frameLoop_total sin pi freq cycles res size nframes delay fuel Q img0 hnew hsw hint
        nframes.toNat
        { i := 0, phase := 0.0, anim := { Image := [], Delay := [], LoopCount := nframes } }
        (by norm_num) (by simp)
    simp only [sub_zero, List.nil_append] at h2 h3 h4 h5
    refine ⟨st1.anim, ?_, h2, h3, ?_, ?_⟩
    · unfold lissajous
      simp only [h1, Option.map_some']
    · rw [h4, h5]
    · rw [h4]; exact h6
  · have h0 : nframes.toNat = 0 := by omega
    refine ⟨{ Image := [], Delay := [], LoopCount := nframes }, ?_, rfl, by simp [h0],
      by simp [h0], by simp⟩
    unfold lissajous
    simp only [h0, frameLoop]
    rw [if_neg (by simpa using hN)]
    rfl

theorem lissajous_result (sin : α → α) (pi freq cycles res : α) (size nframes delay : Int)
    (fuel : Nat) (Q : Paletted → Prop)
    (hsweep : ∀ (phase : α) (img0 img : Paletted),
      NewPaletted (Rect 0 0 (wrapInt (2 * size + 1)) (wrapInt (2 * size + 1))) palette =
        some img0 →
      sweepLoop (cycles * 2 * pi) res (plot sin freq phase size) fuel 0 img0 = some img → Q img)
    (anim : GIF) (h : lissajous sin pi freq fuel cycles res size nframes delay = some anim) :
    anim.LoopCount = nframes ∧ ∀ img ∈ anim.Image, Q img := by
  obtain ⟨st1, hl, rfl⟩ := lissajous_some _ _ _ _ _ _ _ _ _ _ h
  obtain ⟨h1, imgs, h2, h3⟩ := frameLoop_result sin pi freq cycles res size nframes delay fuel
    Q hsweep _ _ _ hl
  simp only [List.nil_append] at h2
  refine ⟨h1, ?_⟩
  rw [h2]
  exact h3

end FrameLemmas

/-! ### The animation -/

section Animation

variable {α : Type} [LinearOrderedField α] [FloorRing α]

/-- C4, amended. For a frame count `0 ≤ nframes` (an `int`) and a delay `delay`, when the
sweep ends within the step budget and, if there is a frame to build, `image.NewPaletted`
accepts the raster of side `2*size+1` (for `0 ≤ size < 2^62` that is `(2*size+1)^2 ≤ 2^48`),
`lissajous` builds an animation whose image list has exactly `nframes` frames and whose
delay list has exactly `nframes` entries, each equal to `delay`; and an iteration of the
frame loop that starts with two lists of the same length ends with two lists of the same
length (they are both empty before the first iteration). -/
theorem lissajous_frames_and_delays (sin : α → α) (pi freq cycles res : α)
    (size nframes delay : Int) (fuel : Nat) (hN : 0 ≤ nframes) (hint : nframes < 2 ^ 63)
    (hterm : (sweepCount pi cycles res fuel).isSome = true)
    (hnew : 0 < nframes →
      (NewPaletted (Rect 0 0 (wrapInt (2 * size + 1)) (wrapInt (2 * size + 1)))
        palette).isSome = true) :
    (∃ anim, lissajous sin pi freq fuel cycles res size nframes delay = some anim ∧
      (anim.Image.length : Int) = nframes ∧ (anim.Delay.length : Int) = nframes ∧
      anim.Delay = List.replicate nframes.toNat delay) ∧
    (∀ st st1 : FrameState α, st.anim.Image.length = st.anim.Delay.length →
      frameBody sin pi freq cycles res size delay fuel st = some st1 →
      st1.anim.Image.length = st1.anim.Delay.length) := by
  constructor
  · obtain ⟨anim, h1, _, h3, h4, _⟩ :=
      lissajous_total sin pi freq cycles res size nframes delay fuel (fun _ => True) hint
        (fun hpos => by
          obtain ⟨img0, himg0⟩ := Option.isSome_iff_exists.mp (hnew hpos)
          refine ⟨img0, himg0, fun phase => ?_⟩
          obtain ⟨img, himg⟩ := sweep_terminates_of_count sin pi freq cycles res phase size fuel
            img0 hterm
          exact ⟨img, himg, trivial⟩)
    refine ⟨anim, h1, ?_, ?_, h3⟩
    · rw [h4]
      exact Int.toNat_of_nonneg hN
    · rw [h3, List.length_replicate]
      exact Int.toNat_of_nonneg hN
  · intro st st1 hlen hb
    obtain ⟨img0, img, _, _, rfl⟩ := frameBody_some _ _ _ _ _ _ _ _ _ _ hb
    simp [hlen]

theorem lissajous_frames_and_delays_witness :
    (∃ anim, lissajous (fun _ => (0 : ℚ)) 3 1 7 1 1 2 3 8 = some anim ∧
      (anim.Image.length : Int) = 3 ∧ (anim.Delay.length : Int) = 3 ∧
      anim.Delay = List.replicate (3 : Int).toNat 8) ∧
    (∀ st st1 : FrameState ℚ, st.anim.Image.length = st.anim.Delay.length →
      frameBody (fun _ => (0 : ℚ)) 3 1 1 1 2 8 7 st = some st1 →
      st1.anim.Image.length = st1.anim.Delay.length) :=
  lissajous_frames_and_delays (fun _ => (0 : ℚ)) 3 1 1 1 2 3 8 7 (by norm_num) (by norm_num)
    (by norm_num [sweepCount, sweepLoop])
    (fun _ => by rw [newPaletted_fits 2 (by norm_num) (by norm_num)]; rfl)

/-- C4 as stated fails: with `size = 3000000000` the pixel count `(2*size+1)^2` overflows
`int`, `image.NewPaletted` panics in the first iteration, and for `nframes = 1` no animation
is built although the sweep (`cycles = 1`, `res = 7`) ends after one step. -/
theorem lissajous_frames_and_delays_counterexample :
    sweepCount (3 : ℚ) 1 7 1 = some 1 ∧
    NewPaletted (Rect 0 0 (wrapInt (2 * 3000000000 + 1)) (wrapInt (2 * 3000000000 + 1)))
      palette = none ∧
    ∀ fuel : Nat, lissajous (fun _ => (0 : ℚ)) 3 1 fuel 1 7 3000000000 1 8 = none := by
  have hnew : NewPaletted (Rect 0 0 (wrapInt (2 * 3000000000 + 1))
      (wrapInt (2 * 3000000000 + 1))) palette = none := by
    rw [newPaletted_canonical 3000000000 (by norm_num) (by norm_num), if_neg (by norm_num)]
  refine ⟨sweepLoop_once _ _ _ 0 0 (by norm_num) (by norm_num), hnew, fun fuel => ?_⟩
  exact lissajous_none_of_first _ _ _ _ _ _ _ _ _ (by norm_num)
    (fun st => frameBody_none_of_panic _ _ _ _ _ _ _ _ st hnew)

/-- C5, amended. For a half-size `0 ≤ size < 2^62`, where `2*size+1` does not overflow
`int`, every frame of the animation built by `lissajous`, and every frame that an iteration
of its frame loop appends, is a raster with bounds `(0,0)-(2*size+1, 2*size+1)`: width
`2*size+1`, height `2*size+1`, origin `(0,0)`, and `(2*size+1)*(2*size+1)` pixels; and when
moreover `(2*size+1)^2 ≤ 2^48`, `0 ≤ nframes` is an `int` and the sweep ends within the step
budget, `lissajous` does build `nframes` such frames. -/
theorem lissajous_frame_size (sin : α → α) (pi freq cycles res : α)
    (size nframes delay : Int) (fuel : Nat) (hS : 0 ≤ size) (hS2 : size < 2 ^ 62) :
    (∀ anim, lissajous sin pi freq fuel cycles res size nframes delay = some anim →
      ∀ img ∈ anim.Image,
        img.Rect = { Min := { X := 0, Y := 0 }, Max := { X := 2 * size + 1, Y := 2 * size + 1 } } ∧
        img.Rect.Dx = 2 * size + 1 ∧ img.Rect.Dy = 2 * size + 1 ∧
        img.Stride = 2 * size + 1 ∧ (img.Pix.length : Int) = (2 * size + 1) * (2 * size + 1)) ∧
    (∀ st st1 : FrameState α,
      frameBody sin pi freq cycles res size delay fuel st = some st1 →
      ∃ img, st1.anim.Image = st.anim.Image ++ [img] ∧
        img.Rect = { Min := { X := 0, Y := 0 }, Max := { X := 2 * size + 1, Y := 2 * size + 1 } } ∧
        img.Rect.Dx = 2 * size + 1 ∧ img.Rect.Dy = 2 * size + 1 ∧
        img.Stride = 2 * size + 1 ∧ (img.Pix.length : Int) = (2 * size + 1) * (2 * size + 1)) ∧
    ((2 * size + 1) * (2 * size + 1) ≤ 2 ^ 48 → 0 ≤ nframes → nframes < 2 ^ 63 →
      (sweepCount pi cycles res fuel).isSome = true →
      ∃ anim, lissajous sin pi freq fuel cycles res size nframes delay = some anim ∧
        (anim.Image.length : Int) = nframes ∧
        ∀ img ∈ anim.Image,
          img.Rect =
            { Min := { X := 0, Y := 0 }, Max := { X := 2 * size + 1, Y := 2 * size + 1 } } ∧
          img.Rect.Dx = 2 * size + 1 ∧ img.Rect.Dy = 2 * size + 1 ∧
          img.Stride = 2 * size + 1 ∧
          (img.Pix.length : Int) = (2 * size + 1) * (2 * size + 1)) := by
  have shape : ∀ (phase : α) (img0 img : Paletted),
      NewPaletted (Rect 0 0 (wrapInt (2 * size + 1)) (wrapInt (2 * size + 1))) palette =
        some img0 →
      sweepLoop (cycles * 2 * pi) res (plot sin freq phase size) fuel 0 img0 = some img →
      img.Rect = { Min := { X := 0, Y := 0 }, Max := { X := 2 * size + 1, Y := 2 * size + 1 } } ∧
        img.Rect.Dx = 2 * size + 1 ∧ img.Rect.Dy = 2 * size + 1 ∧
        img.Stride = 2 * size + 1 ∧ (img.Pix.length : Int) = (2 * size + 1) * (2 * size + 1) := by
    intro phase img0 img hnew himg
    obtain ⟨h1, h2, _, h4⟩ := sweep_keeps_shape sin freq phase size _ _ _ _ _ _ himg
    rw [newPaletted_canonical size hS hS2] at hnew
    have hnn : 0 ≤ (2 * size + 1) * (2 * size + 1) := by positivity
    split at hnew
    · simp only [Option.some.injEq] at hnew
      subst hnew
      simp only at h1 h2 h4
      have hd : wrapInt (2 * size + 1 - 0) = 2 * size + 1 := by
        rw [sub_zero]
        exact wrapInt_of_range _ (by omega) (by omega)
      refine ⟨h1, ?_, ?_, h2, ?_⟩
      · rw [h1]; simp only [Rectangle.Dx, hd]
      · rw [h1]; simp only [Rectangle.Dy, hd]
      · rw [h4, List.length_replicate]
        exact Int.toNat_of_nonneg hnn
    · simp at hnew
  refine ⟨?_, ?_, ?_⟩
  · intro anim h img himg
    exact (lissajous_result sin pi freq cycles res size nframes delay fuel _ shape anim h).2
      img himg
  · intro st st1 hb
    obtain ⟨img0, img, hnew, himg, rfl⟩ := frameBody_some _ _ _ _ _ _ _ _ _ _ hb
    exact ⟨img, rfl, shape _ _ _ hnew himg⟩
  · intro hfit hN hint hterm
    obtain ⟨anim, h1, _, _, h4, h5⟩ :=
      lissajous_total sin pi freq cycles res size nframes delay fuel _ hint
        (fun _ => ⟨_, newPaletted_fits size hS hfit palette, fun phase => by
          obtain ⟨img, himg⟩ := sweep_terminates_of_count sin pi freq cycles res phase size fuel
            _ hterm
          exact ⟨img, himg, shape phase _ img (newPaletted_fits size hS hfit palette) himg⟩⟩)
    refine ⟨anim, h1, ?_, h5⟩
    rw [h4]
    exact Int.toNat_of_nonneg hN

theorem lissajous_frame_size_witness :
    ∃ anim, lissajous (fun _ => (1 : ℚ)) 3 1 20 1 (1 / 2) 2 2 8 = some anim ∧
      (anim.Image.length : Int) = 2 ∧
      ∀ img ∈ anim.Image,
        img.Rect = { Min := { X := 0, Y := 0 }, Max := { X := 2 * 2 + 1, Y := 2 * 2 + 1 } } ∧
        img.Rect.Dx = 2 * 2 + 1 ∧ img.Rect.Dy = 2 * 2 + 1 ∧
        img.Stride = 2 * 2 + 1 ∧ (img.Pix.length : Int) = (2 * 2 + 1) * (2 * 2 + 1) :=
  (lissajous_frame_size (fun _ => (1 : ℚ)) 3 1 1 (1 / 2) 2 2 8 20 (by norm_num)
    (by norm_num)).2.2 (by norm_num) (by norm_num) (by norm_num)
    (by norm_num [sweepCount, sweepLoop])

end Animation

/-! ### Number of sweep iterations -/

section SweepCountField

variable {α : Type} [LinearOrderedField α]

end SweepCountField

section SweepCount

variable {α : Type} [LinearOrderedField α] [FloorRing α]

theorem sweepCount_of_pos (pi cycles res : α) (hres : 0 < res) (fuel : Nat) :
    sweepCount pi cycles res fuel =
      if ⌈cycles * 2 * pi / res⌉₊ ≤ fuel then some ⌈cycles * 2 * pi / res⌉₊ else none := by
  have hlt : ∀ j : Nat, j < ⌈cycles * 2 * pi / res⌉₊ → (0 : α) + j * res < cycles * 2 * pi := by
    intro j hj
    have := (Nat.lt_ceil).mp hj
    rw [zero_add]
    exact (lt_div_iff₀ hres).mp this
  unfold sweepCount
  split
  · rename_i hle
    rw [sweepLoop_count (cycles * 2 * pi) res ⌈cycles * 2 * pi / res⌉₊ fuel 0 0 hle hlt]
    · simp
    · rw [zero_add, not_lt]
      exact (div_le_iff₀ hres).mp (Nat.le_ceil _)
  · rename_i hnle
    apply sweepLoop_starved
    intro j hj
    exact hlt j (by omega)

end SweepCount

/-! ### Pixel coordinates -/

section Coordinates

variable {α : Type} [LinearOrderedField α] [FloorRing α]

theorem truncate_bounds (f : α) (n : Int) (hn : 0 ≤ n) (h1 : -(n : α) - 1 < f)
    (h2 : f < (n : α) + 1) : -n ≤ truncate f ∧ truncate f ≤ n := by
  unfold truncate
  split
  · rename_i h0
    have hf : 0 ≤ ⌊f⌋ := Int.floor_nonneg.mpr h0
    have hlt : ⌊f⌋ < n + 1 := by
      rw [Int.floor_lt]
      push_cast
      exact h2
    omega
  · rename_i h0
    have hf : ⌈f⌉ ≤ 0 := by
      rw [Int.ceil_le]
      push_cast
      exact le_of_lt (not_le.mp h0)
    have hlt : -n - 1 < ⌈f⌉ := by
      rw [Int.lt_ceil]
      push_cast
      exact h1
    omega

theorem toInt_of_range (f : α) (h1 : -2 ^ 63 ≤ truncate f) (h2 : truncate f < 2 ^ 63) :
    toInt f = truncate f := by
  unfold toInt
  rw [if_pos ⟨h1, h2⟩]

theorem coordinate_bounds (S : Int) (x b : α) (hS : 0 ≤ S) (hS2 : S < 2 ^ 62)
    (hx : -1 ≤ x ∧ x ≤ 1) (hb : 0 ≤ b ∧ b < 1) :
    wrapInt (S + toInt (x * (S : α) + b)) = S + truncate (x * (S : α) + b) ∧
      0 ≤ S + truncate (x * (S : α) + b) ∧ S + truncate (x * (S : α) + b) ≤ 2 * S := by
  have hS1 : (0 : α) ≤ (S : α) := by exact_mod_cast hS
  have hlo : -(S : α) ≤ x * (S : α) := by nlinarith [hx.1, hx.2]
  have hhi : x * (S : α) ≤ (S : α) := by nlinarith [hx.1, hx.2]
  obtain ⟨h1, h2⟩ := truncate_bounds (x * (S : α) + b) S hS (by linarith [hb.1]) (by linarith [hb.2])
  rw [toInt_of_range _ (by omega) (by omega), wrapInt_of_range _ (by omega) (by omega)]
  refine ⟨rfl, ?_, ?_⟩ <;> omega

theorem setColorIndex_inside (S : Int) (hS : 0 ≤ S) (hS2 : S < 2 ^ 62) (img : Paletted)
    (x y : Int) (index : Nat)
    (hrect : img.Rect = Rect 0 0 (wrapInt (2 * S + 1)) (wrapInt (2 * S + 1)))
    (hx : 0 ≤ x ∧ x ≤ 2 * S) (hy : 0 ≤ y ∧ y ≤ 2 * S) :
    Point.In { X := x, Y := y } img.Rect = true ∧
      img.SetColorIndex x y index =
        { img with Pix := img.Pix.set (img.PixOffset x y).toNat index } := by
  rw [rect_canonical S hS hS2] at hrect
  have hin : Point.In { X := x, Y := y } img.Rect = true := by
    rw [hrect]
    simp only [Point.In, Bool.and_eq_true, decide_eq_true_eq]
    omega
  refine ⟨hin, ?_⟩
  unfold Paletted.SetColorIndex
  simp only [hin, Bool.not_true, Bool.false_eq_true, if_false]

theorem pixOffset_inside (S : Int) (hS : 0 ≤ S) (h63 : (2 * S + 1) * (2 * S + 1) < 2 ^ 63)
    (img : Paletted) (x y : Int)
    (hrect : img.Rect = Rect 0 0 (wrapInt (2 * S + 1)) (wrapInt (2 * S + 1)))
    (hstride : img.Stride = 2 * S + 1)
    (hlen : (img.Pix.length : Int) = (2 * S + 1) * (2 * S + 1))
    (hx : 0 ≤ x ∧ x ≤ 2 * S) (hy : 0 ≤ y ∧ y ≤ 2 * S) :
    img.PixOffset x y = y * (2 * S + 1) + x ∧ (img.PixOffset x y).toNat < img.Pix.length := by
  have h31 := side_lt_of_fits S h63
  rw [rect_canonical S hS (by omega)] at hrect
  have h1 : y * (2 * S + 1) ≤ 2 * S * (2 * S + 1) :=
    mul_le_mul_of_nonneg_right hy.2 (by omega)
  have h2 : 0 ≤ y * (2 * S + 1) := mul_nonneg hy.1 (by omega)
  have h3 : (2 * S + 1) * (2 * S + 1) = 2 * S * (2 * S + 1) + (2 * S + 1) := by ring
  have hoff : img.PixOffset x y = y * (2 * S + 1) + x := by
    unfold Paletted.PixOffset
    rw [hrect, hstride]
    simp only [sub_zero, mul_one]
    exact wrapInt_of_range _ (by omega) (by omega)
  refine ⟨hoff, ?_⟩
  rw [hoff]
  omega

/-- C9, amended. For a half-size `0 ≤ S < 2^62`, where neither `2*S+1` nor `S + S`
overflows `int`, and `x`, `y` in `[-1, 1]`: the pixel coordinates that the sweep body
computes, `S + int(x*S + 0.5)` and `S + int(x*S + 0.7)` (likewise for `y`), are the exact
sums with `int` truncating towards zero and lie in `[0, 2*S]`; on a raster with the bounds
`image.Rect(0, 0, 2*S+1, 2*S+1)` both points pass the bounds test of `SetColorIndex`; and
on such a raster with stride `2*S+1` and `(2*S+1)^2 < 2^63` pixels, `plot`, where `sin`
takes values in `[-1, 1]` at `t` and at `t*freq+phase`, performs exactly its two writes, at
the offsets `y*(2*S+1) + x` of the two points, both inside the pixel buffer, the second
over the first. -/
theorem plot_in_bounds (sin : α → α) (freq phase t : α) (S : Int) (x y : α) (img : Paletted)
    (hS : 0 ≤ S) (hS2 : S < 2 ^ 62) (hx : -1 ≤ x ∧ x ≤ 1) (hy : -1 ≤ y ∧ y ≤ 1)
    (hrect : img.Rect = Rect 0 0 (wrapInt (2 * S + 1)) (wrapInt (2 * S + 1))) :
    (wrapInt (S + toInt (x * (S : α) + 0.5)) = S + truncate (x * (S : α) + 0.5) ∧
      0 ≤ S + truncate (x * (S : α) + 0.5) ∧ S + truncate (x * (S : α) + 0.5) ≤ 2 * S) ∧
    (wrapInt (S + toInt (y * (S : α) + 0.5)) = S + truncate (y * (S : α) + 0.5) ∧
      0 ≤ S + truncate (y * (S : α) + 0.5) ∧ S + truncate (y * (S : α) + 0.5) ≤ 2 * S) ∧
    (wrapInt (S + toInt (x * (S : α) + 0.7)) = S + truncate (x * (S : α) + 0.7) ∧
      0 ≤ S + truncate (x * (S : α) + 0.7) ∧ S + truncate (x * (S : α) + 0.7) ≤ 2 * S) ∧
    (wrapInt (S + toInt (y * (S : α) + 0.7)) = S + truncate (y * (S : α) + 0.7) ∧
      0 ≤ S + truncate (y * (S : α) + 0.7) ∧ S + truncate (y * (S : α) + 0.7) ≤ 2 * S) ∧
    Point.In { X := wrapInt (S + toInt (x * (S : α) + 0.5)),
               Y := wrapInt (S + toInt (y * (S : α) + 0.5)) } img.Rect = true ∧
    Point.In { X := wrapInt (S + toInt (x * (S : α) + 0.7)),
               Y := wrapInt (S + toInt (y * (S : α) + 0.7)) } img.Rect = true ∧
    (img.Stride = 2 * S + 1 → (img.Pix.length : Int) = (2 * S + 1) * (2 * S + 1) →
      (2 * S + 1) * (2 * S + 1) < 2 ^ 63 →
      (-1 ≤ sin t ∧ sin t ≤ 1) → (-1 ≤ sin (t * freq + phase) ∧ sin (t * freq + phase) ≤ 1) →
      ((S + truncate (sin (t * freq + phase) * (S : α) + 0.5)) * (2 * S + 1) +
          (S + truncate (sin t * (S : α) + 0.5))).toNat < img.Pix.length ∧
      ((S + truncate (sin (t * freq + phase) * (S : α) + 0.7)) * (2 * S + 1) +
          (S + truncate (sin t * (S : α) + 0.7))).toNat < img.Pix.length ∧
      plot sin freq phase S t img =
        { img with
          Pix := (img.Pix.set
            ((S + truncate (sin (t * freq + phase) * (S : α) + 0.5)) * (2 * S + 1) +
              (S + truncate (sin t * (S : α) + 0.5))).toNat greenIndex).set
            ((S + truncate (sin (t * freq + phase) * (S : α) + 0.7)) * (2 * S + 1) +
              (S + truncate (sin t * (S : α) + 0.7))).toNat redIndex }) := by
  have h5 : (0 : α) ≤ 0.5 ∧ (0.5 : α) < 1 := by norm_num
  have h7 : (0 : α) ≤ 0.7 ∧ (0.7 : α) < 1 := by norm_num
  have a1 := coordinate_bounds S x 0.5 hS hS2 hx h5
  have a2 := coordinate_bounds S y 0.5 hS hS2 hy h5
  have a3 := coordinate_bounds S x 0.7 hS hS2 hx h7
  have a4 := coordinate_bounds S y 0.7 hS hS2 hy h7
  refine ⟨a1, a2, a3, a4, ?_, ?_, ?_⟩
  · rw [a1.1, a2.1]
    exact (setColorIndex_inside S hS hS2 img _ _ 0 hrect a1.2 a2.2).1
  · rw [a3.1, a4.1]
    exact (setColorIndex_inside S hS hS2 img _ _ 0 hrect a3.2 a4.2).1
  · intro hstride hlen h63 hsx hsy
    have b1 := coordinate_bounds S (sin t) 0.5 hS hS2 hsx h5
    have b2 := coordinate_bounds S (sin (t * freq + phase)) 0.5 hS hS2 hsy h5
    have b3 := coordinate_bounds S (sin t) 0.7 hS hS2 hsx h7
    have b4 := coordinate_bounds S (sin (t * freq + phase)) 0.7 hS hS2 hsy h7
    obtain ⟨o1, l1⟩ := pixOffset_inside S hS h63 img _ _ hrect hstride hlen b1.2 b2.2
    obtain ⟨o2, l2⟩ := pixOffset_inside S hS h63 img _ _ hrect hstride hlen b3.2 b4.2
    rw [o1] at l1
    rw [o2] at l2
    refine ⟨l1, l2, ?_⟩
    unfold plot
    simp only [b1.1, b2.1, b3.1, b4.1]
    rw [(setColorIndex_inside S hS hS2 img _ _ greenIndex hrect b1.2 b2.2).2, o1]
    obtain ⟨o3, _⟩ := pixOffset_inside S hS h63
      { img with
        Pix := img.Pix.set
          ((S + truncate (sin (t * freq + phase) * (S : α) + 0.5)) * (2 * S + 1) +
            (S + truncate (sin t * (S : α) + 0.5))).toNat greenIndex }
      _ _ (by simpa using hrect) (by simpa using hstride) (by simpa using hlen) b3.2 b4.2
    rw [(setColorIndex_inside S hS hS2 _ _ _ redIndex (by simpa using hrect) b3.2 b4.2).2, o3]

theorem plot_in_bounds_witness :
    ((3 + truncate ((1 : ℚ) * ((3 : Int) : ℚ) + 0.5)) * (2 * 3 + 1) +
        (3 + truncate ((1 : ℚ) * ((3 : Int) : ℚ) + 0.5))).toNat <
      (List.replicate 49 (0 : Nat)).length ∧
    ((3 + truncate ((1 : ℚ) * ((3 : Int) : ℚ) + 0.7)) * (2 * 3 + 1) +
        (3 + truncate ((1 : ℚ) * ((3 : Int) : ℚ) + 0.7))).toNat <
      (List.replicate 49 (0 : Nat)).length ∧
    plot (fun _ => (1 : ℚ)) 1 0 3 0
        { Pix := List.replicate 49 0, Stride := 7,
          Rect := { Min := { X := 0, Y := 0 }, Max := { X := 7, Y := 7 } },
          Palette := palette } =
      { Pix := ((List.replicate 49 0).set
          ((3 + truncate ((1 : ℚ) * ((3 : Int) : ℚ) + 0.5)) * (2 * 3 + 1) +
            (3 + truncate ((1 : ℚ) * ((3 : Int) : ℚ) + 0.5))).toNat greenIndex).set
          ((3 + truncate ((1 : ℚ) * ((3 : Int) : ℚ) + 0.7)) * (2 * 3 + 1) +
            (3 + truncate ((1 : ℚ) * ((3 : Int) : ℚ) + 0.7))).toNat redIndex,
        Stride := 7,
        Rect := { Min := { X := 0, Y := 0 }, Max := { X := 7, Y := 7 } },
        Palette := palette } :=
  (plot_in_bounds (fun _ => (1 : ℚ)) 1 0 0 3 1 (-1)
    { Pix := List.replicate 49 0, Stride := 7,
      Rect := { Min := { X := 0, Y := 0 }, Max := { X := 7, Y := 7 } },
      Palette := palette }
    (by norm_num) (by norm_num) (by norm_num) (by norm_num)
    (by rw [rect_canonical 3 (by norm_num) (by norm_num)]; norm_num)).2.2.2.2.2.2
    (by norm_num) (by norm_num) (by norm_num) (by norm_num) (by norm_num)

end Coordinates

/-! ### Frames of a degenerate sweep -/

section Degenerate

variable {α : Type} [LinearOrderedField α] [FloorRing α]

theorem setColorIndex_mem (S : Int) (hS : 0 ≤ S) (hfit : (2 * S + 1) * (2 * S + 1) ≤ 2 ^ 48)
    (img : Paletted) (x y : Int) (index : Nat)
    (hrect : img.Rect = Rect 0 0 (wrapInt (2 * S + 1)) (wrapInt (2 * S + 1)))
    (hstride : img.Stride = 2 * S + 1)
    (hlen : (img.Pix.length : Int) = (2 * S + 1) * (2 * S + 1))
    (hx : 0 ≤ x ∧ x ≤ 2 * S) (hy : 0 ≤ y ∧ y ≤ 2 * S) :
    index ∈ (img.SetColorIndex x y index).Pix := by
  have h31 := side_lt_of_fits S (by omega)
  rw [(setColorIndex_inside S hS (by omega) img x y index hrect hx hy).2]
  simp only
  apply List.mem_set
  exact (pixOffset_inside S hS (by omega) img x y hrect hstride hlen hx hy).2

theorem plot_marks (sin : α → α) (freq phase : α) (S : Int) (hS : 0 ≤ S)
    (hfit : (2 * S + 1) * (2 * S + 1) ≤ 2 ^ 48) (t : α)
    (hx : -1 ≤ sin t ∧ sin t ≤ 1)
    (hy : -1 ≤ sin (t * freq + phase) ∧ sin (t * freq + phase) ≤ 1) (img0 : Paletted)
    (hnew : NewPaletted (Rect 0 0 (wrapInt (2 * S + 1)) (wrapInt (2 * S + 1))) palette =
      some img0) :
    redIndex ∈ (plot sin freq phase S t img0).Pix := by
  have h7 : (0 : α) ≤ 0.7 ∧ (0.7 : α) < 1 := by norm_num
  have h31 := side_lt_of_fits S (by omega)
  have hnn : 0 ≤ (2 * S + 1) * (2 * S + 1) := by positivity
  rw [newPaletted_fits S hS hfit palette] at hnew
  simp only [Option.some.injEq] at hnew
  subst hnew
  obtain ⟨c1, c2, c3⟩ := coordinate_bounds S (sin t) 0.7 hS (by omega) hx h7
  obtain ⟨d1, d2, d3⟩ := coordinate_bounds S (sin (t * freq + phase)) 0.7 hS (by omega) hy h7
  unfold plot
  simp only [c1, d1]
  generalize hg : Paletted.SetColorIndex _ (wrapInt (S + toInt (sin t * (S : α) + 0.5)))
    (wrapInt (S + toInt (sin (t * freq + phase) * (S : α) + 0.5))) greenIndex = img1
  obtain ⟨b1, b2, _, b4⟩ := setColorIndex_rect
    { Pix := List.replicate ((2 * S + 1) * (2 * S + 1)).toNat 0, Stride := 2 * S + 1,
      Rect := { Min := { X := 0, Y := 0 }, Max := { X := 2 * S + 1, Y := 2 * S + 1 } },
      Palette := palette }
    (wrapInt (S + toInt (sin t * (S : α) + 0.5)))
    (wrapInt (S + toInt (sin (t * freq + phase) * (S : α) + 0.5))) greenIndex
  rw [hg] at b1 b2 b4
  apply setColorIndex_mem S hS hfit img1
  · rw [b1, rect_canonical S hS (by omega)]
  · rw [b2]
  · rw [b4, List.length_replicate]
    exact Int.toNat_of_nonneg hnn
  · exact ⟨c2, c3⟩
  · exact ⟨d2, d3⟩

/-- C7, amended. When `cycles = 0`, for every `res`, every half-size `size ≥ 0` whose raster
`image.NewPaletted` allocates (`(2*size+1)^2 ≤ 2^48`), every frame count `0 ≤ nframes` (an
`int`), every frequency and every step budget, the sweep loop runs zero iterations and
`lissajous` builds an animation of `nframes` frames, each of `(2*size+1)*(2*size+1)` pixels
that all hold the background index 0. -/
theorem lissajous_zero_cycles (sin : α → α) (pi freq res : α) (size nframes delay : Int)
    (fuel : Nat) (hS : 0 ≤ size) (hfit : (2 * size + 1) * (2 * size + 1) ≤ 2 ^ 48)
    (hN : 0 ≤ nframes) (hint : nframes < 2 ^ 63) :
    sweepCount pi 0 res fuel = some 0 ∧
    ∃ anim, lissajous sin pi freq fuel 0 res size nframes delay = some anim ∧
      (anim.Image.length : Int) = nframes ∧
      ∀ img ∈ anim.Image,
        (img.Pix.length : Int) = (2 * size + 1) * (2 * size + 1) ∧
          ∀ p ∈ img.Pix, p = blackIndex := by
  have hb : ¬ (0 : α) < 0 * 2 * pi := by simp
  have hnew := newPaletted_fits size hS hfit palette
  refine ⟨sweepLoop_done _ _ _ _ _ _ hb, ?_⟩
  obtain ⟨anim, h1, _, _, h4, h5⟩ := lissajous_total sin pi freq 0 res size nframes delay fuel
    (fun img => img =
      { Pix := List.replicate ((2 * size + 1) * (2 * size + 1)).toNat 0
        Stride := 2 * size + 1
        Rect := { Min := { X := 0, Y := 0 }, Max := { X := 2 * size + 1, Y := 2 * size + 1 } }
        Palette := palette }) hint
    (fun _ => ⟨_, hnew, fun phase => ⟨_, sweepLoop_done _ _ _ _ _ _ hb, rfl⟩⟩)
  refine ⟨anim, h1, ?_, ?_⟩
  · rw [h4]; exact Int.toNat_of_nonneg hN
  · intro img himg
    rw [h5 img himg]
    have hnn : 0 ≤ (2 * size + 1) * (2 * size + 1) := by positivity
    refine ⟨?_, ?_⟩
    · simp only [List.length_replicate]
      exact Int.toNat_of_nonneg hnn
    · intro p hp
      exact (List.mem_replicate.mp hp).2

theorem lissajous_zero_cycles_witness :
    sweepCount (3 : ℚ) 0 (-1) 0 = some 0 ∧
    ∃ anim, lissajous (fun _ => (1 : ℚ)) 3 2 0 0 (-1) 1 4 8 = some anim ∧
      (anim.Image.length : Int) = 4 ∧
      ∀ img ∈ anim.Image,
        (img.Pix.length : Int) = (2 * 1 + 1) * (2 * 1 + 1) ∧ ∀ p ∈ img.Pix, p = blackIndex :=
  lissajous_zero_cycles (fun _ => (1 : ℚ)) 3 2 (-1) 1 4 8 0 (by norm_num) (by norm_num)
    (by norm_num) (by norm_num)

/-- C7 as stated fails: with `cycles = 0`, `size = 3000000000 ≥ 0` and `nframes = 1` the
sweep would run zero steps, but `image.NewPaletted` panics on the pixel count and no frame
is built. -/
theorem lissajous_zero_cycles_counterexample :
    sweepCount (3 : ℚ) 0 1 0 = some 0 ∧
    NewPaletted (Rect 0 0 (wrapInt (2 * 3000000000 + 1)) (wrapInt (2 * 3000000000 + 1)))
      palette = none ∧
    ∀ fuel : Nat, lissajous (fun _ => (0 : ℚ)) 3 1 fuel 0 1 3000000000 1 8 = none := by
  have hnew : NewPaletted (Rect 0 0 (wrapInt (2 * 3000000000 + 1))
      (wrapInt (2 * 3000000000 + 1))) palette = none := by
    rw [newPaletted_canonical 3000000000 (by norm_num) (by norm_num), if_neg (by norm_num)]
  refine ⟨sweepLoop_done _ _ _ _ _ _ (by norm_num), hnew, fun fuel => ?_⟩
  exact lissajous_none_of_first _ _ _ _ _ _ _ _ _ (by norm_num)
    (fun st => frameBody_none_of_panic _ _ _ _ _ _ _ _ st hnew)

end Degenerate

/-! ### Loop count, and a step larger than the sweep range -/

section LoopCount

variable {α : Type} [LinearOrderedField α] [FloorRing α]

/-- C6. The animation that `lissajous` hands to the encoder has its loop count equal to
`nframes`: whenever a result is produced its `LoopCount` is `nframes`; a result is produced
whenever the sweep ends within the step budget, `nframes` is an `int` and, if there is a
frame to build, `image.NewPaletted` accepts the raster; and the request
`cycles=1, res=0.5, size=2, nframes=2, delay=1` yields 2 frames, each 5 by 5, with loop
count 2. -/
theorem lissajous_loop_count (sin : α → α) (pi freq cycles res : α)
    (size nframes delay : Int) (fuel : Nat) :
    (∀ anim, lissajous sin pi freq fuel cycles res size nframes delay = some anim →
      anim.LoopCount = nframes) ∧
    ((sweepCount pi cycles res fuel).isSome = true → nframes < 2 ^ 63 →
      (0 < nframes →
        (NewPaletted (Rect 0 0 (wrapInt (2 * size + 1)) (wrapInt (2 * size + 1)))
          palette).isSome = true) →
      ∃ anim, lissajous sin pi freq fuel cycles res size nframes delay = some anim ∧
        anim.LoopCount = nframes) ∧
    (∃ anim, lissajous sin pi freq ⌈(1 : α) * 2 * pi / 0.5⌉₊ 1 0.5 2 2 1 = some anim ∧
      anim.Image.length = 2 ∧ anim.Delay = [1, 1] ∧
      (∀ img ∈ anim.Image, img.Rect.Dx = 5 ∧ img.Rect.Dy = 5) ∧ anim.LoopCount = 2) := by
  refine ⟨?_, ?_, ?_⟩
  · intro anim h
    exact (lissajous_result sin pi freq cycles res size nframes delay fuel (fun _ => True)
      (fun _ _ _ _ _ => trivial) anim h).1
  · intro hterm hint hnew
    obtain ⟨anim, h1, h2, _⟩ := lissajous_total sin pi freq cycles res size nframes delay fuel
      (fun _ => True) hint
      (fun hpos => by
        obtain ⟨img0, himg0⟩ := Option.isSome_iff_exists.mp (hnew hpos)
        refine ⟨img0, himg0, fun phase => ?_⟩
        obtain ⟨img, himg⟩ := sweep_terminates_of_count sin pi freq cycles res phase size fuel
          img0 hterm
        exact ⟨img, himg, trivial⟩)
    exact ⟨anim, h1, h2⟩
  · have hterm : (sweepCount pi 1 0.5 ⌈(1 : α) * 2 * pi / 0.5⌉₊).isSome = true := by
      rw [sweepCount_of_pos pi 1 0.5 (by norm_num), if_pos (le_refl _)]
      rfl
    have hnew := newPaletted_fits 2 (by norm_num) (by norm_num) palette
    obtain ⟨anim, h1, h2, h3, h4, h5⟩ := lissajous_total sin pi freq 1 0.5 2 2 1
      ⌈(1 : α) * 2 * pi / 0.5⌉₊
      (fun img => img.Rect.Dx = 5 ∧ img.Rect.Dy = 5) (by norm_num)
      (fun _ => ⟨_, hnew, fun phase => by
        obtain ⟨img, himg⟩ := sweep_terminates_of_count sin pi freq 1 0.5 phase 2
          ⌈(1 : α) * 2 * pi / 0.5⌉₊ _ hterm
        obtain ⟨a1, _⟩ := sweep_keeps_shape sin freq phase 2 _ _ _ _ _ _ himg
        refine ⟨img, himg, ?_, ?_⟩
        · rw [Rectangle.Dx, a1]
          exact wrapInt_of_range _ (by norm_num) (by norm_num)
        · rw [Rectangle.Dy, a1]
          exact wrapInt_of_range _ (by norm_num) (by norm_num)⟩)
    exact ⟨anim, h1, h4, h3, h5, h2⟩

theorem lissajous_loop_count_witness :
    ∃ anim, lissajous (fun _ => (1 : ℚ)) 3 2 20 1 (1 / 2) 2 2 1 = some anim ∧
      anim.LoopCount = 2 :=
  (lissajous_loop_count (fun _ => (1 : ℚ)) 3 2 1 (1 / 2) 2 2 1 20).2.1
    (by norm_num [sweepCount, sweepLoop]) (by norm_num)
    (fun _ => by rw [newPaletted_fits 2 (by norm_num) (by norm_num)]; rfl)

/-- C8, amended. Let `res` be larger than `cycles*2*pi` (with `0 < pi`), `size ≥ 0` a
half-size whose raster `image.NewPaletted` allocates (`(2*size+1)^2 ≤ 2^48`) and
`0 ≤ nframes` an `int`.  If `cycles ≤ 0` the sweep loop plots zero points and each of the
`nframes` frames is background-only.  If `cycles > 0` the loop body runs exactly once, at
`t = 0`, before the step takes `t` past the bound: one point is plotted in each of the
`nframes` frames, and when `sin` has its values in `[-1, 1]` every frame holds a pixel of
index `redIndex`, so none is background-only. -/
theorem sweep_beyond_range (sin : α → α) (pi freq cycles res : α)
    (size nframes delay : Int) (fuel : Nat) (hpi : 0 < pi) (hres : cycles * 2 * pi < res)
    (hS : 0 ≤ size) (hfit : (2 * size + 1) * (2 * size + 1) ≤ 2 ^ 48)
    (hN : 0 ≤ nframes) (hint : nframes < 2 ^ 63) :
    (cycles ≤ 0 →
      sweepCount pi cycles res fuel = some 0 ∧
      ∃ anim, lissajous sin pi freq fuel cycles res size nframes delay = some anim ∧
        (anim.Image.length : Int) = nframes ∧
        ∀ img ∈ anim.Image, ∀ p ∈ img.Pix, p = blackIndex) ∧
    (0 < cycles →
      sweepCount pi cycles res (fuel + 1) = some 1 ∧
      ∃ anim, lissajous sin pi freq (fuel + 1) cycles res size nframes delay = some anim ∧
        (anim.Image.length : Int) = nframes ∧
        (∀ img ∈ anim.Image, ∃ phase img0,
          NewPaletted (Rect 0 0 (wrapInt (2 * size + 1)) (wrapInt (2 * size + 1))) palette =
            some img0 ∧
          img = plot sin freq phase size 0 img0) ∧
        ((∀ t, -1 ≤ sin t ∧ sin t ≤ 1) → ∀ img ∈ anim.Image, redIndex ∈ img.Pix)) := by
  have hnew := newPaletted_fits size hS hfit palette
  constructor
  · intro hc
    have hb : ¬ (0 : α) < cycles * 2 * pi := by
      rw [not_lt]
      have : cycles * 2 ≤ 0 := by linarith
      exact mul_nonpos_of_nonpos_of_nonneg this hpi.le
    refine ⟨sweepLoop_done _ _ _ _ _ _ hb, ?_⟩
    obtain ⟨anim, h1, _, _, h4, h5⟩ := lissajous_total sin pi freq cycles res size nframes delay
      fuel (fun img => ∀ p ∈ img.Pix, p = blackIndex) hint
      (fun _ => ⟨_, hnew, fun phase => ⟨_, sweepLoop_done _ _ _ _ _ _ hb,
        newPaletted_black _ _ hnew⟩⟩)
    refine ⟨anim, h1, ?_, h5⟩
    rw [h4]; exact Int.toNat_of_nonneg hN
  · intro hc
    have hb : (0 : α) < cycles * 2 * pi := by positivity
    refine ⟨sweepLoop_once _ _ _ _ _ hb hres.le, ?_⟩
    obtain ⟨anim, h1, _, _, h4, h5⟩ := lissajous_total sin pi freq cycles res size nframes delay
      (fuel + 1)
      (fun img => ∃ phase img0,
        NewPaletted (Rect 0 0 (wrapInt (2 * size + 1)) (wrapInt (2 * size + 1))) palette =
          some img0 ∧
        img = plot sin freq phase size 0 img0) hint
      (fun _ => ⟨_, hnew, fun phase => ⟨_, sweepLoop_once _ _ _ _ _ hb hres.le, phase, _, hnew,
        rfl⟩⟩)
    refine ⟨anim, h1, ?_, h5, ?_⟩
    · rw [h4]; exact Int.toNat_of_nonneg hN
    · intro hsin img himg
      obtain ⟨phase, img0, himg0, rfl⟩ := h5 img himg
      exact plot_marks sin freq phase size hS hfit 0 (hsin _) (hsin _) img0 himg0

end LoopCount

/-! ### Concrete runs -/

theorem truncate_half {α : Type} [LinearOrderedField α] [FloorRing α] :
    truncate (0.5 : α) = 0 ∧ truncate (0.7 : α) = 0 := by
  unfold truncate
  constructor
  · rw [if_pos (by norm_num), Int.floor_eq_iff]
    norm_num
  · rw [if_pos (by norm_num), Int.floor_eq_iff]
    norm_num

theorem toInt_half {α : Type} [LinearOrderedField α] [FloorRing α] :
    toInt (0.5 : α) = 0 ∧ toInt (0.7 : α) = 0 := by
  constructor
  · rw [toInt_of_range _ (by rw [truncate_half.1]; norm_num) (by rw [truncate_half.1]; norm_num)]
    exact truncate_half.1
  · rw [toInt_of_range _ (by rw [truncate_half.2]; norm_num) (by rw [truncate_half.2]; norm_num)]
    exact truncate_half.2

theorem wrapInt_top : wrapInt (2 * 9223372036854775807 + 1) = -1 := by
  unfold wrapInt wrapSigned IntSize
  norm_num

theorem newPaletted_top :
    NewPaletted (Rect 0 0 (wrapInt (2 * 9223372036854775807 + 1))
      (wrapInt (2 * 9223372036854775807 + 1))) palette =
      some { Pix := [0], Stride := 1,
             Rect := { Min := { X := -1, Y := -1 }, Max := { X := 0, Y := 0 } },
             Palette := palette } := by
  rw [wrapInt_top]
  have h1 : wrapInt 1 = 1 := wrapInt_of_range _ (by norm_num) (by norm_num)
  simp [NewPaletted, pixelBufferLength, mul3NonNeg, Rect, Rectangle.Dx, Rectangle.Dy, h1,
    maxAlloc]

theorem plot_top (freq phase t : ℚ) :
    plot (fun _ => (0 : ℚ)) freq phase 9223372036854775807 t
      { Pix := [0], Stride := 1,
        Rect := { Min := { X := -1, Y := -1 }, Max := { X := 0, Y := 0 } },
        Palette := palette } =
      { Pix := [0], Stride := 1,
        Rect := { Min := { X := -1, Y := -1 }, Max := { X := 0, Y := 0 } },
        Palette := palette } := by
  have hw : wrapInt (9223372036854775807 + 0) = 9223372036854775807 :=
    wrapInt_of_range _ (by norm_num) (by norm_num)
  simp only [plot, zero_mul, zero_add, toInt_half.1, toInt_half.2, hw, Paletted.SetColorIndex,
    Point.In]
  norm_num

/-- C5 as stated fails: the half-size `2^63 - 1 ≥ 0` is a value of `int`, `2*size+1` wraps
to `-1`, `image.Rect(0, 0, -1, -1)` is the rectangle `(-1,-1)-(0,0)`, and the frame that
`lissajous` appends is 1 by 1 with origin `(-1,-1)`, not `2*size+1` wide at `(0,0)`. -/
theorem lissajous_frame_size_counterexample :
    (0 : Int) ≤ 9223372036854775807 ∧
    lissajous (fun _ => (0 : ℚ)) 3 1 1 1 7 9223372036854775807 1 8 =
      some { Image := [{ Pix := [0], Stride := 1,
                         Rect := { Min := { X := -1, Y := -1 }, Max := { X := 0, Y := 0 } },
                         Palette := palette }],
             Delay := [8], LoopCount := 1 } := by
  refine ⟨by norm_num, ?_⟩
  have hsweep : sweepLoop ((1 : ℚ) * 2 * 3) 7
      (plot (fun _ => (0 : ℚ)) 1 0.0 9223372036854775807) 1 0
      { Pix := [0], Stride := 1,
        Rect := { Min := { X := -1, Y := -1 }, Max := { X := 0, Y := 0 } },
        Palette := palette } =
      some { Pix := [0], Stride := 1,
             Rect := { Min := { X := -1, Y := -1 }, Max := { X := 0, Y := 0 } },
             Palette := palette } := by
    rw [sweepLoop_once _ _ _ 0 _ (by norm_num) (by norm_num), plot_top]
  have hb := frameBody_of_sweep (fun _ => (0 : ℚ)) 3 1 1 7 9223372036854775807 8 1
    { i := 0, phase := 0.0, anim := { Image := [], Delay := [], LoopCount := 1 } } _ _
    newPaletted_top hsweep
  have h1 : (1 : Int).toNat = 1 := rfl
  have hw : wrapInt (0 + 1) = 1 := wrapInt_of_range _ (by norm_num) (by norm_num)
  unfold lissajous
  simp only [h1]
  unfold frameLoop
  rw [if_pos (by norm_num), hb]
  simp only [Option.some_bind, frameLoop, hw]
  rw [if_neg (by norm_num)]
  rfl

/-- C9 as stated fails: for the half-size `S = 2^63 - 1 ≥ 0` and `x = y = 0` in `[-1, 1]`
the raster that `lissajous` allocates is `(-1,-1)-(0,0)`, the plotted point `(S, S)` is
outside it, the bounds test of `SetColorIndex` fails and both writes of the sweep body are
dropped. -/
theorem plot_in_bounds_counterexample :
    NewPaletted (Rect 0 0 (wrapInt (2 * 9223372036854775807 + 1))
      (wrapInt (2 * 9223372036854775807 + 1))) palette =
      some { Pix := [0], Stride := 1,
             Rect := { Min := { X := -1, Y := -1 }, Max := { X := 0, Y := 0 } },
             Palette := palette } ∧
    Point.In
      { X := wrapInt (9223372036854775807 +
          toInt ((0 : ℚ) * ((9223372036854775807 : Int) : ℚ) + 0.5)),
        Y := wrapInt (9223372036854775807 +
          toInt ((0 : ℚ) * ((9223372036854775807 : Int) : ℚ) + 0.5)) }
      { Min := { X := -1, Y := -1 }, Max := { X := 0, Y := 0 } } = false ∧
    plot (fun _ => (0 : ℚ)) 1 0 9223372036854775807 0
      { Pix := [0], Stride := 1,
        Rect := { Min := { X := -1, Y := -1 }, Max := { X := 0, Y := 0 } },
        Palette := palette } =
      { Pix := [0], Stride := 1,
        Rect := { Min := { X := -1, Y := -1 }, Max := { X := 0, Y := 0 } },
        Palette := palette } := by
  have hw : wrapInt (9223372036854775807 + 0) = 9223372036854775807 :=
    wrapInt_of_range _ (by norm_num) (by norm_num)
  refine ⟨newPaletted_top, ?_, plot_top 1 0 0⟩
  simp only [zero_mul, zero_add, toInt_half.1, hw, Point.In]
  norm_num

theorem sweep_beyond_range_witness :
    sweepCount (3 : ℚ) 1 7 (0 + 1) = some 1 ∧
    ∃ anim, lissajous (fun _ => (0 : ℚ)) 3 1 (0 + 1) 1 7 1 2 8 = some anim ∧
      (anim.Image.length : Int) = 2 ∧
      (∀ img ∈ anim.Image, ∃ phase img0,
        NewPaletted (Rect 0 0 (wrapInt (2 * 1 + 1)) (wrapInt (2 * 1 + 1))) palette =
          some img0 ∧
        img = plot (fun _ => (0 : ℚ)) 1 phase 1 0 img0) ∧
      ((∀ t : ℚ, -1 ≤ (fun _ => (0 : ℚ)) t ∧ (fun _ => (0 : ℚ)) t ≤ 1) →
        ∀ img ∈ anim.Image, redIndex ∈ img.Pix) :=
  (sweep_beyond_range (fun _ => (0 : ℚ)) 3 1 1 7 1 2 8 0 (by norm_num) (by norm_num)
    (by norm_num) (by norm_num) (by norm_num) (by norm_num)).2 (by norm_num)


/-- C8 as stated fails: with `cycles = 1` and `res = 7`, which is larger than `1*2*π`, the
sweep loop of `lissajous` (over the reals, with the sine and `π` themselves) runs once, and
the single frame for `size = 1` carries the index `redIndex` at its centre. -/
theorem sweep_beyond_range_counterexample :
    (1 : ℝ) * 2 * Real.pi < 7 ∧ sweepCount Real.pi 1 7 1 = some 1 ∧
    lissajous Real.sin Real.pi 1 1 1 7 1 1 8 =
      some { Image := [{ Pix := [0, 0, 0, 0, 2, 0, 0, 0, 0], Stride := 3,
                         Rect := { Min := { X := 0, Y := 0 }, Max := { X := 3, Y := 3 } },
                         Palette := palette }],
             Delay := [8], LoopCount := 1 } := by
  have hlt : (1 : ℝ) * 2 * Real.pi < 7 := by linarith [Real.pi_lt_d2]
  have hpos : (0 : ℝ) < 1 * 2 * Real.pi := by linarith [Real.pi_pos]
  have hsweep : ∀ img : Paletted,
      sweepLoop ((1 : ℝ) * 2 * Real.pi) 7 (plot Real.sin 1 0.0 1) 1 0 img =
        some (plot Real.sin 1 0.0 1 0 img) := fun img => sweepLoop_once _ _ _ 0 img hpos hlt.le
  refine ⟨hlt, sweepLoop_once _ _ _ 0 0 hpos hlt.le, ?_⟩
  have h1 : (1 : Int).toNat = 1 := rfl
  have hz : (0.0 : ℝ) = 0 := by norm_num
  have hnew := newPaletted_fits 1 (by norm_num) (by norm_num) palette
  have hw : wrapInt (0 + 1) = 1 := wrapInt_of_range _ (by norm_num) (by norm_num)
  have hw1 : wrapInt (1 + 0) = 1 := wrapInt_of_range _ (by norm_num) (by norm_num)
  have hoff : wrapInt ((1 - 0) * (2 * 1 + 1) + (1 - 0) * 1) = 4 :=
    wrapInt_of_range _ (by norm_num) (by norm_num)
  have hb := frameBody_of_sweep Real.sin Real.pi 1 1 7 1 8 1
    { i := 0, phase := 0.0, anim := { Image := [], Delay := [], LoopCount := 1 } } _ _ hnew
    (hsweep _)
  unfold lissajous
  simp only [h1]
  unfold frameLoop
  rw [if_pos (by norm_num), hb]
  simp only [Option.some_bind, frameLoop, hw]
  rw [if_neg (by norm_num)]
  simp only [plot, hz, Real.sin_zero, zero_mul, mul_zero, zero_add, add_zero, Int.cast_one,
    mul_one, toInt_half.1, toInt_half.2, hw1, Paletted.SetColorIndex, Point.In,
    Paletted.PixOffset, hoff, greenIndex, redIndex]
  have hwi : wrapInt 1 = 1 := wrapInt_of_range _ (by norm_num) (by norm_num)
  have hw4 : wrapInt 4 = 4 := wrapInt_of_range _ (by norm_num) (by norm_num)
  norm_num [hwi, hw4]
  rfl

end Lissajous
